import Mathlib

/-!
Verification of the resumable date-range crawl-and-download engine of
`gem-scrape` (`src/scraper.js`, entry validation in `src/index.js`).

The development has three parts:

1. A model of the JavaScript `Date` values manipulated by the date helpers
   `parseDate`, `formatDate`, `addMonths`, `addDays` (scraper.js:17-42).
   A `Date` produced by this program always sits at local midnight (it is
   built by `new Date(y, m, d)` and mutated only with `setMonth`/`setDate`),
   so we represent it by its day number: the integer number of days since
   1970-01-01, i.e. its ECMAScript time value divided by 86400000.
   `new Date(y, m, d)`, `getFullYear`, `getMonth`, `getDate`, `setMonth`
   and `setDate` are embedded by the ECMAScript specification's own
   `MakeDay`, `YearFromTime`, `MonthFromTime` and `DateFromTime` algorithms
   (`dayFromYear`, `monthStart` and the leap-year rule are the spec's
   tables verbatim; `yearFromDay` computes the year `YearFromTime`
   characterises, and is proved to satisfy that characterisation).
   Comparisons such as `nextStartDate > today` compare time values, which
   for midnight dates is exactly the order on day numbers; `today`
   (`new Date()`) carries a time of day, but for an integer day number `s`,
   `s > today` holds iff `s > (day number of today's date)`, so `today` is
   also modelled by its day number.

2. A state-passing model of the crawl engine `scrapeRange`/`runScraper`
   (scraper.js:44-247).  The remote portal, the HTML selector layer of
   cheerio, and filesystem success/failure are an abstract environment
   `Env`; the two regular expressions applied to responses (the
   single-quoted-token pattern of scraper.js:80 for record ids, the
   escaped-href pattern of scraper.js:118 and the backslash-slash
   unescaping of scraper.js:122 for download links) are implemented
   concretely.  The mutable run state (stats counters, the in-memory
   cached-id set, the cache log file, the set of written pdf files) is an
   explicit `ScrapeState`, and every external action is also recorded in an
   event trace so that ordering properties can be stated.  The cache log
   `temp-cache.txt` is modelled at line granularity (one appended line per
   `record(id)`; record ids are attribute tokens and contain no newline).
   The window-to-window hand-off through `formatDate`/`parseDate` strings
   is modelled by passing the day number directly; this is justified by
   `parseDateNums_format` below, which proves the numeric round trip
   `parseDateNums (getDate z) (getMonth z + 1) (getFullYear z) = z` for
   every date with a readable year.

3. The claim theorems, each with its witness or counterexample.
-/

namespace GemScrape

/-! ### Part 1: the JavaScript Date model -/

/-- Gregorian leap-year rule, as in ECMAScript `DaysInYear`. -/
def isLeap (y : Int) : Bool := (y % 4 == 0 && y % 100 != 0) || y % 400 == 0

/-- Number of days in year `y`. -/
def daysInYear (y : Int) : Int := if isLeap y then 366 else 365

/-- ECMAScript `DayFromYear(y)`: the day number of 1 January of year `y`. -/
def dayFromYear (y : Int) : Int :=
  365 * (y - 1970) + (y - 1969) / 4 - (y - 1901) / 100 + (y - 1601) / 400

/-- ECMAScript `YearFromTime`: the year a day number falls in.  Computed by a
linear estimate plus correction; `yearFromDay_char` proves it satisfies the
spec's defining property `dayFromYear y ≤ z < dayFromYear (y + 1)`. -/
def yearFromDay (z : Int) : Int :=
  let y0 := 1970 + (400 * z) / 146097
  if z < dayFromYear y0 then y0 - 1
  else if dayFromYear (y0 + 1) ≤ z then y0 + 1
  else y0

/-- Leap indicator as an integer (`InLeapYear`). -/
def leapN (leap : Bool) : Int := if leap then 1 else 0

/-- Cumulative days before 0-based month `m` (ECMAScript month table);
extended at `m = 12` with the full year so that `monthStart_succ` covers
December. -/
def monthStart (leap : Bool) (m : Int) : Int :=
  if m ≤ 0 then 0 else if m = 1 then 31 else if m = 2 then 59 + leapN leap
  else if m = 3 then 90 + leapN leap else if m = 4 then 120 + leapN leap
  else if m = 5 then 151 + leapN leap else if m = 6 then 181 + leapN leap
  else if m = 7 then 212 + leapN leap else if m = 8 then 243 + leapN leap
  else if m = 9 then 273 + leapN leap else if m = 10 then 304 + leapN leap
  else if m = 11 then 334 + leapN leap else 365 + leapN leap

/-- ECMAScript `MonthFromTime`: the 0-based month of day `w` of a year. -/
def monthFromYearDay (leap : Bool) (w : Int) : Int :=
  if w < 31 then 0 else if w < 59 + leapN leap then 1 else if w < 90 + leapN leap then 2
  else if w < 120 + leapN leap then 3 else if w < 151 + leapN leap then 4
  else if w < 181 + leapN leap then 5 else if w < 212 + leapN leap then 6
  else if w < 243 + leapN leap then 7 else if w < 273 + leapN leap then 8
  else if w < 304 + leapN leap then 9 else if w < 334 + leapN leap then 10 else 11

/-- Days in 0-based month `m`. -/
def daysInMonth (leap : Bool) (m : Int) : Int :=
  if m = 1 then (if leap then 29 else 28)
  else if m = 3 ∨ m = 5 ∨ m = 8 ∨ m = 10 then 30 else 31

/-- JavaScript getFullYear of a day number. -/
def getFullYear (z : Int) : Int := yearFromDay z

/-- ECMAScript `DayWithinYear`. -/
def dayWithinYear (z : Int) : Int := z - dayFromYear (yearFromDay z)

/-- JavaScript getMonth of a day number (0-based). -/
def getMonth (z : Int) : Int :=
  monthFromYearDay (isLeap (yearFromDay z)) (dayWithinYear z)

/-- JavaScript getDate of a day number (1-based day of month). -/
def getDate (z : Int) : Int :=
  dayWithinYear z - monthStart (isLeap (yearFromDay z)) (getMonth z) + 1

/-- ECMAScript `MakeDay(y, m, d)`: the day number of day `d` (1-based, may
overflow or underflow) of 0-based month `m` (may overflow or underflow) of
year `y`.  This is the semantics of `new Date(y, m, d)` (without the
two-digit-year adjustment, which is applied by `parseDateNums`), of
`setMonth` and of `setDate`. -/
def mkDay (y m d : Int) : Int :=
  dayFromYear (y + m / 12) + monthStart (isLeap (y + m / 12)) (m % 12) + (d - 1)

/-- Embedding of the helper parseDate (scraper.js:17-20) on the three numeric fields of a
`DD-MM-YYYY` string: `new Date(y, m - 1, d)`, including the ECMAScript
constructor's mapping of years 0-99 to 1900-1999. -/
def parseDateNums (d m y : Int) : Int :=
  mkDay (if 0 ≤ y ∧ y ≤ 99 then y + 1900 else y) (m - 1) d

/-- Embedding of addMonths (scraper.js:29-36): `setMonth(getMonth() + months)` on a
copy, then `setDate(0)` (last day of the previous month) if the
day-of-month changed. -/
def addMonths (z months : Int) : Int :=
  let d1 := mkDay (getFullYear z) (getMonth z + months) (getDate z)
  if getDate d1 ≠ getDate z then mkDay (getFullYear d1) (getMonth d1) 0 else d1

/-- Embedding of addDays (scraper.js:38-42): `setDate(getDate() + days)` on a copy. -/
def addDays (z days : Int) : Int :=
  mkDay (getFullYear z) (getMonth z) (getDate z + days)

theorem dayFromYear_succ (y : Int) :
    dayFromYear (y + 1) = dayFromYear y + daysInYear y := by
  simp only [dayFromYear, daysInYear, isLeap]
  by_cases h4 : y % 4 = 0 <;> by_cases h100 : y % 100 = 0 <;> by_cases h400 : y % 400 = 0 <;>
    simp [h4, h100, h400] <;> omega

theorem yearFromDay_char (z : Int) :
    dayFromYear (yearFromDay z) ≤ z ∧ z < dayFromYear (yearFromDay z + 1) := by
  simp only [yearFromDay]
  split
  · rename_i h
    constructor
    · simp only [dayFromYear] at *; omega
    · rw [show (1970 + 400 * z / 146097 : Int) - 1 + 1 = 1970 + 400 * z / 146097 from by ring]
      exact h
  · split
    · rename_i h h2
      refine ⟨h2, ?_⟩
      rw [show (1970 + 400 * z / 146097 : Int) + 1 + 1 = 1970 + 400 * z / 146097 + 2 from by ring]
      simp only [dayFromYear] at *; omega
    · rename_i h h2
      exact ⟨by omega, by omega⟩

theorem dayFromYear_strictMono : StrictMono dayFromYear := by
  have h : ∀ y : Int, dayFromYear y < dayFromYear (y + 1) := by
    intro y
    rw [dayFromYear_succ]
    simp only [daysInYear]
    split <;> omega
  exact strictMono_int_of_lt_succ h

/-- The year extractor inverts `dayFromYear` on every in-year offset. -/
theorem yearFromDay_eq (y w : Int) (h0 : 0 ≤ w) (h1 : w < daysInYear y) :
    yearFromDay (dayFromYear y + w) = y := by
  have hc := yearFromDay_char (dayFromYear y + w)
  set Y := yearFromDay (dayFromYear y + w) with hY
  have hs := dayFromYear_succ y
  rcases lt_trichotomy Y y with hlt | heq | hgt
  · have := dayFromYear_strictMono.le_iff_le.mpr (show Y + 1 ≤ y by omega)
    omega
  · exact heq
  · have := dayFromYear_strictMono.le_iff_le.mpr (show y + 1 ≤ Y by omega)
    omega

set_option maxRecDepth 4000 in
theorem monthTable_facts : ∀ (leap : Bool) (w : Nat), w < 366 → (w : Int) < 365 + leapN leap →
    0 ≤ monthFromYearDay leap (w : Int) ∧ monthFromYearDay leap (w : Int) ≤ 11 ∧
    monthStart leap (monthFromYearDay leap (w : Int)) ≤ (w : Int) ∧
    (w : Int) < monthStart leap (monthFromYearDay leap (w : Int)) +
      daysInMonth leap (monthFromYearDay leap (w : Int)) := by decide

theorem monthStart_succ : ∀ (leap : Bool) (m : Nat), m < 12 →
    monthStart leap ((m : Int) + 1) = monthStart leap (m : Int) + daysInMonth leap (m : Int) ∧
    monthStart leap ((m : Int) + 1) ≤ 365 + leapN leap ∧
    0 ≤ monthStart leap (m : Int) ∧
    28 ≤ daysInMonth leap (m : Int) ∧ daysInMonth leap (m : Int) ≤ 31 := by
  decide

theorem monthFromYearDay_monthStart : ∀ (leap : Bool) (m : Nat), m < 12 → ∀ (d : Nat), d < 31 →
    ((d : Int) + 1) ≤ daysInMonth leap (m : Int) →
    monthFromYearDay leap (monthStart leap (m : Int) + ((d : Int) + 1) - 1) = (m : Int) := by
  decide

theorem daysInYear_eq (y : Int) : daysInYear y = 365 + leapN (isLeap y) := by
  cases h : isLeap y <;> simp [daysInYear, leapN, h]

theorem mkDay_affine (y m d k : Int) : mkDay y m (d + k) = mkDay y m d + k := by
  simp only [mkDay]; ring

theorem leapN_bounds (b : Bool) : 0 ≤ leapN b ∧ leapN b ≤ 1 := by
  cases b <;> simp [leapN]

/-- The components read back from a day number are a valid calendar date. -/
theorem getters_valid (z : Int) :
    0 ≤ getMonth z ∧ getMonth z ≤ 11 ∧
    1 ≤ getDate z ∧ getDate z ≤ daysInMonth (isLeap (getFullYear z)) (getMonth z) := by
  have hc := yearFromDay_char z
  have hs := dayFromYear_succ (yearFromDay z)
  have hy := daysInYear_eq (yearFromDay z)
  have hL := leapN_bounds (isLeap (yearFromDay z))
  simp only [getMonth, getDate, getFullYear, dayWithinYear]
  set w : Int := z - dayFromYear (yearFromDay z) with hw
  have h0 : 0 ≤ w := by omega
  have h1 : w < daysInYear (yearFromDay z) := by omega
  have hwn : ((w.toNat : Nat) : Int) = w := Int.toNat_of_nonneg h0
  have hm := monthTable_facts (isLeap (yearFromDay z)) w.toNat (by omega) (by rw [hwn]; omega)
  rw [hwn] at hm
  omega

/-- Reading the components back and rebuilding the day is the identity. -/
theorem mkDay_getters (z : Int) : mkDay (getFullYear z) (getMonth z) (getDate z) = z := by
  have hv := getters_valid z
  have h12 : getMonth z / 12 = 0 := by omega
  have h12b : getMonth z % 12 = getMonth z := by omega
  simp only [mkDay, h12, h12b, add_zero]
  simp only [getFullYear, getDate, getMonth, dayWithinYear] at *
  omega

/-- Building a day from valid components inverts the getters. -/
theorem getters_mkDay (y m d : Int) (hm0 : 0 ≤ m) (hm1 : m ≤ 11)
    (hd0 : 1 ≤ d) (hd1 : d ≤ daysInMonth (isLeap y) m) :
    getFullYear (mkDay y m d) = y ∧ getMonth (mkDay y m d) = m ∧
    getDate (mkDay y m d) = d := by
  have hcm : ((m.toNat : Nat) : Int) = m := Int.toNat_of_nonneg hm0
  have hfacts := monthStart_succ (isLeap y) m.toNat (by omega)
  rw [hcm] at hfacts
  have hy := daysInYear_eq y
  have hL := leapN_bounds (isLeap y)
  have hz : mkDay y m d = dayFromYear y + (monthStart (isLeap y) m + d - 1) := by
    have h12 : m / 12 = 0 := by omega
    have h12b : m % 12 = m := by omega
    simp only [mkDay, h12, h12b, add_zero]
    ring
  set w : Int := monthStart (isLeap y) m + d - 1 with hw
  have hw0 : 0 ≤ w := by omega
  have hw1 : w < daysInYear y := by omega
  have hyz : getFullYear (mkDay y m d) = y := by
    simp only [getFullYear]
    rw [hz]
    exact yearFromDay_eq y w hw0 hw1
  have hyz' : yearFromDay (mkDay y m d) = y := hyz
  have hM : getMonth (mkDay y m d) = m := by
    have hcd : (((d - 1).toNat : Nat) : Int) = d - 1 := Int.toNat_of_nonneg (by omega)
    have hmm := monthFromYearDay_monthStart (isLeap y) m.toNat (by omega) (d - 1).toNat
      (by omega) (by rw [hcd, hcm]; omega)
    rw [hcd, hcm] at hmm
    have harg : monthStart (isLeap y) m + (d - 1 + 1) - 1 = w := by omega
    rw [harg] at hmm
    simp only [getMonth, dayWithinYear, hyz']
    rw [hz]
    have harg2 : dayFromYear y + w - dayFromYear y = w := by ring
    rw [harg2]
    exact hmm
  refine ⟨hyz, hM, ?_⟩
  simp only [getDate, dayWithinYear, hyz', hM]
  rw [hz]
  omega

/-- Adding days is addition on day numbers. -/
theorem addDays_eq (z k : Int) : addDays z k = z + k := by
  have h := mkDay_getters z
  simp only [addDays]
  rw [mkDay_affine, h]

/-- Day-of-month overflow in `mkDay` rolls into the following month. -/
theorem mkDay_overflow (y m d : Int) (hm0 : 0 ≤ m) (hm1 : m ≤ 11) :
    mkDay y m d =
      (if m ≤ 10 then mkDay y (m + 1) (d - daysInMonth (isLeap y) m)
       else mkDay (y + 1) 0 (d - daysInMonth (isLeap y) m)) := by
  have hcm : ((m.toNat : Nat) : Int) = m := Int.toNat_of_nonneg hm0
  have hfacts := monthStart_succ (isLeap y) m.toNat (by omega)
  rw [hcm] at hfacts
  split
  · rename_i h10
    have e1 : m / 12 = 0 := by omega
    have e2 : m % 12 = m := by omega
    have e3 : (m + 1) / 12 = 0 := by omega
    have e4 : (m + 1) % 12 = m + 1 := by omega
    simp only [mkDay, e1, e2, e3, e4, add_zero]
    omega
  · rename_i h10
    have hm11 : m = 11 := by omega
    subst hm11
    have e1 : (11 : Int) / 12 = 0 := by norm_num
    have e2 : (11 : Int) % 12 = 11 := by norm_num
    have e3 : (0 : Int) / 12 = 0 := by norm_num
    have e4 : (0 : Int) % 12 = 0 := by norm_num
    simp only [mkDay, e1, e2, e3, e4, add_zero]
    have hsucc := dayFromYear_succ y
    have hy := daysInYear_eq y
    have hms0 : monthStart (isLeap (y + 1)) 0 = 0 := by norm_num [monthStart]
    have hms12 : monthStart (isLeap y) (11 + 1) = 365 + leapN (isLeap y) := by
      norm_num [monthStart]
    rw [hms0]
    omega

/-- Numeric round trip of `formatDate` followed by `parseDate`: re-parsing the
printed components of a date recovers the same day number whenever the year
prints with at least three digits (always the case for this program's
windows).  This justifies passing day numbers directly where the source
passes `DD-MM-YYYY` strings between loop iterations. -/
theorem parseDateNums_format (z : Int) (h : 100 ≤ getFullYear z) :
    parseDateNums (getDate z) (getMonth z + 1) (getFullYear z) = z := by
  simp only [parseDateNums]
  rw [if_neg (by omega)]
  have harg : getMonth z + 1 - 1 = getMonth z := by ring
  rw [harg, mkDay_getters]

/-- The calendar month reached three months after `z`'s month (same year if
the 0-based index stays below 12, else the next year). -/
def targetYear (z : Int) : Int :=
  if getMonth z + 3 ≤ 11 then getFullYear z else getFullYear z + 1

/-- The 0-based index of the calendar month three months after `z`'s month. -/
def targetMonth (z : Int) : Int :=
  if getMonth z + 3 ≤ 11 then getMonth z + 3 else getMonth z + 3 - 12

theorem addMonths_aux (z ty tm : Int)
    (h1 : mkDay (getFullYear z) (getMonth z + 3) (getDate z) = mkDay ty tm (getDate z))
    (h2 : 0 ≤ tm) (h3 : tm ≤ 11) (hD1 : 1 ≤ getDate z) (hD31 : getDate z ≤ 31) :
    getFullYear (addMonths z 3) = ty ∧ getMonth (addMonths z 3) = tm ∧
    getDate (addMonths z 3) =
      (if getDate z ≤ daysInMonth (isLeap ty) tm then getDate z
       else daysInMonth (isLeap ty) tm) := by
  have hctm : ((tm.toNat : Nat) : Int) = tm := Int.toNat_of_nonneg h2
  have hdimf := monthStart_succ (isLeap ty) tm.toNat (by omega)
  rw [hctm] at hdimf
  simp only [addMonths, h1]
  by_cases hle : getDate z ≤ daysInMonth (isLeap ty) tm
  · have hg := getters_mkDay ty tm (getDate z) h2 h3 hD1 hle
    rw [hg.2.2, if_neg (by simp), if_pos hle]
    exact hg
  · have hlt : daysInMonth (isLeap ty) tm < getDate z := by omega
    have hov := mkDay_overflow ty tm (getDate z) h2 h3
    have hov0 := mkDay_overflow ty tm (daysInMonth (isLeap ty) tm) h2 h3
    by_cases h10 : tm ≤ 10
    · rw [if_pos h10] at hov hov0
      have hcnm : (((tm + 1).toNat : Nat) : Int) = tm + 1 := Int.toNat_of_nonneg (by omega)
      have hdimf2 := monthStart_succ (isLeap ty) (tm + 1).toNat (by omega)
      rw [hcnm] at hdimf2
      have hg := getters_mkDay ty (tm + 1) (getDate z - daysInMonth (isLeap ty) tm)
        (by omega) (by omega) (by omega) (by omega)
      rw [hov, hg.2.2, if_pos (by omega), hg.1, hg.2.1]
      have hz0 : mkDay ty (tm + 1) 0 = mkDay ty tm (daysInMonth (isLeap ty) tm) := by
        rw [hov0]
        have : daysInMonth (isLeap ty) tm - daysInMonth (isLeap ty) tm = 0 := by ring
        rw [this]
      rw [hz0]
      have hg2 := getters_mkDay ty tm (daysInMonth (isLeap ty) tm) h2 h3 (by omega) (by omega)
      rw [if_neg hle]
      exact hg2
    · rw [if_neg h10] at hov hov0
      have hdim0 : daysInMonth (isLeap (ty + 1)) 0 = 31 := by norm_num [daysInMonth]
      have hg := getters_mkDay (ty + 1) 0 (getDate z - daysInMonth (isLeap ty) tm)
        (by omega) (by omega) (by omega) (by omega)
      rw [hov, hg.2.2, if_pos (by omega), hg.1, hg.2.1]
      have hz0 : mkDay (ty + 1) 0 0 = mkDay ty tm (daysInMonth (isLeap ty) tm) := by
        rw [hov0]
        have : daysInMonth (isLeap ty) tm - daysInMonth (isLeap ty) tm = 0 := by ring
        rw [this]
      rw [hz0]
      have hg2 := getters_mkDay ty tm (daysInMonth (isLeap ty) tm) h2 h3 (by omega) (by omega)
      rw [if_neg hle]
      exact hg2

/-- Full characterisation of `addMonths z 3`: it lands in the target calendar
month, keeping the day when it exists there and clamping to the target
month's last day otherwise. -/
theorem addMonths3_spec (z : Int) :
    getFullYear (addMonths z 3) = targetYear z ∧
    getMonth (addMonths z 3) = targetMonth z ∧
    getDate (addMonths z 3) =
      (if getDate z ≤ daysInMonth (isLeap (targetYear z)) (targetMonth z) then getDate z
       else daysInMonth (isLeap (targetYear z)) (targetMonth z)) := by
  have hv := getters_valid z
  have hcM : ((((getMonth z).toNat) : Nat) : Int) = getMonth z := Int.toNat_of_nonneg (by omega)
  have hmsM := monthStart_succ (isLeap (getFullYear z)) (getMonth z).toNat (by omega)
  rw [hcM] at hmsM
  have hD31 : getDate z ≤ 31 := by omega
  by_cases hM3 : getMonth z + 3 ≤ 11
  · have hty : targetYear z = getFullYear z := if_pos hM3
    have htm : targetMonth z = getMonth z + 3 := if_pos hM3
    rw [hty, htm]
    exact addMonths_aux z (getFullYear z) (getMonth z + 3) rfl (by omega) (by omega)
      (by omega) hD31
  · have hty : targetYear z = getFullYear z + 1 := if_neg hM3
    have htm : targetMonth z = getMonth z + 3 - 12 := if_neg hM3
    rw [hty, htm]
    refine addMonths_aux z (getFullYear z + 1) (getMonth z + 3 - 12) ?_ (by omega) (by omega)
      (by omega) hD31
    have e1 : (getMonth z + 3) / 12 = 1 := by omega
    have e2 : (getMonth z + 3) % 12 = getMonth z + 3 - 12 := by omega
    have e3 : (getMonth z + 3 - 12) / 12 = 0 := by omega
    have e4 : (getMonth z + 3 - 12) % 12 = getMonth z + 3 - 12 := by omega
    simp only [mkDay, e1, e2, e3, e4, add_zero]

/-! ### Part 2: the crawl engine model -/

/-- The single-quote character, written via its code point. -/
def squote : Char := Char.ofNat 39

/-- First match of the record-id regex of scraper.js:80: the first
single-quoted non-empty run of characters; scanning restarts after an
opening quote whose capture would be empty, exactly as a backtracking
regex engine does. -/
def firstQuoted : List Char → Option String
  | [] => none
  | c :: rest =>
    if c = squote then
      let cap := rest.takeWhile (fun x => x ≠ squote)
      if cap = [] then firstQuoted rest
      else if rest.dropWhile (fun x => x ≠ squote) = [] then none
      else some (String.mk cap)
    else firstQuoted rest

/-- Record ids extracted from one listing page (scraper.js:76-85): each
`.block_header` node contributes its anchor's `onclick` attribute (if any,
abstracted by the environment), from which the first quoted token is
taken; blocks with no attribute or no match are dropped. -/
def extractIds (blocks : List (Option String)) : List String :=
  blocks.filterMap (fun onclick => onclick.bind (fun s => firstQuoted s.toList))

/-- Match of the part of the escaped-href regex of scraper.js:118 after the
literal `href=`: an optional backslash, a double quote, a non-empty capture
of non-quote characters, an optional backslash and a closing double quote.
Backtracking makes the greedy capture run to the closing quote, so the
optional backslash before it is absorbed into the capture. -/
def hrefCapture (r0 : List Char) : Option String :=
  let r1 : Option (List Char) :=
    match r0 with
    | '\\' :: '"' :: rest => some rest
    | '"' :: rest => some rest
    | _ => none
  match r1 with
  | none => none
  | some r2 =>
    let cap := r2.takeWhile (fun x => x ≠ '"')
    if cap = [] then none
    else if r2.dropWhile (fun x => x ≠ '"') = [] then none
    else some (String.mk cap)

/-- First match of the escaped-href regex of scraper.js:118, scanning left
to right. -/
def hrefEsc : List Char → Option String
  | [] => none
  | c :: rest =>
    match (if (c :: rest).take 5 = ['h', 'r', 'e', 'f', '='] then
             hrefCapture ((c :: rest).drop 5)
           else none) with
    | some u => some u
    | none => hrefEsc rest

/-- Unescaping of the link (scraper.js:122): rewrite every backslash-slash pair to a slash. -/
def unescapeSlashes : List Char → List Char
  | '\\' :: '/' :: rest => '/' :: unescapeSlashes rest
  | c :: rest => c :: unescapeSlashes rest
  | [] => []

/-- Payload of a successful token-exchange response (`{status, code}`). -/
structure SbtData where
  status : String
  code : String
deriving DecidableEq, Repr

/-- The crawl's environment: the remote portal, cheerio's selector layer and
filesystem success.  `listPage f t p` is the listing response for window
`(f, t)` and page `p` — `none` models a transport error, and each block is
the `onclick` attribute (or its absence) of the `.block_header` node's
anchor; the filter fields and credential are fixed for a run and are
absorbed into the environment.  `sbt id` models `POST sbtCaptcha`: the
outer `none` is a transport error and the inner `none` a falsy response
body.  `anchorHref code` is the cheerio fallback `$('a').attr('href')` on
the code fragment (scraper.js:124-125).  `pdfGet url` tells whether the
binary `GET` succeeds and `writeOk f t id` whether writing
`pdfs/<f>_to_<t>/<id>.pdf` succeeds. -/
structure Env where
  listPage : Int → Int → Nat → Option (List (Option String))
  sbt : String → Option (Option SbtData)
  anchorHref : String → Option String
  pdfGet : String → Bool
  writeOk : Int → Int → String → Bool

/-- Resolution of the download link from the `code` fragment
(scraper.js:117-126): the escaped-href pattern first, with `\/`
unescaping, else the cheerio anchor scan. -/
def resolveUrl (env : Env) (code : String) : Option String :=
  match hrefEsc code.toList with
  | some u => some (String.mk (unescapeSlashes u.toList))
  | none => env.anchorHref code

/-- The stats counters (scraper.js:194). -/
structure Stats where
  scraped : Nat
  downloaded : Nat
  skipped : Nat
  failed : Nat
deriving DecidableEq, Repr

/-- The mutable state of a run: the counters, the in-memory cached-id set
(`cachedIds`), the lines of the cache log `temp-cache.txt`, and the set of
completely written pdf files, identified by window and id. -/
structure ScrapeState where
  stats : Stats
  cached : List String
  cacheFile : List String
  files : List (Int × Int × String)
deriving DecidableEq, Repr

/-- Externally observable actions, in program order. -/
inductive Event where
  | ensureDir (f t : Int)
  | postPage (f t : Int) (page : Nat)
  | postSbt (id : String)
  | getPdf (url : String)
  | writeFile (f t : Int) (id : String)
  | appendCache (id : String)
  | memAdd (id : String)
deriving DecidableEq, Repr

def markFailed (st : ScrapeState) : ScrapeState :=
  { st with stats := { st.stats with failed := st.stats.failed + 1 } }

/-- One iteration of the per-id loop (scraper.js:94-155): count the id as
scraped; skip it when the in-memory set contains it; otherwise exchange the
token, resolve the link, fetch the binary, write the file, append the id to
the cache log and only then add it to the in-memory set — any error or
rejection on the way is caught in place and counted as failed. -/
def processItem (env : Env) (f t : Int) (id : String) (st : ScrapeState) :
    ScrapeState × List Event :=
  let st1 : ScrapeState := { st with stats := { st.stats with scraped := st.stats.scraped + 1 } }
  if st1.cached.contains id then
    ({ st1 with stats := { st1.stats with skipped := st1.stats.skipped + 1 } }, [])
  else
    match env.sbt id with
    | some (some dta) =>
      if dta.status = "1" then
        let url := (resolveUrl env dta.code).getD ""
        if url ≠ "" then
          if env.pdfGet url then
            if env.writeOk f t id then
              ({ st1 with
                  stats := { st1.stats with downloaded := st1.stats.downloaded + 1 },
                  cached := st1.cached ++ [id],
                  cacheFile := st1.cacheFile ++ [id],
                  files := st1.files ++ [(f, t, id)] },
               [Event.postSbt id, Event.getPdf url, Event.writeFile f t id,
                Event.appendCache id, Event.memAdd id])
            else (markFailed st1, [Event.postSbt id, Event.getPdf url])
          else (markFailed st1, [Event.postSbt id, Event.getPdf url])
        else (markFailed st1, [Event.postSbt id])
      else (markFailed st1, [Event.postSbt id])
    | some none => (markFailed st1, [Event.postSbt id])
    | none => (markFailed st1, [Event.postSbt id])

/-- The decision procedure for whether resolving a (non-cached) id would
reach the cache update: token exchange answers with status `"1"`, a
non-empty link is resolved, and the binary fetch and file write succeed. -/
def itemSucceeds (env : Env) (f t : Int) (id : String) : Bool :=
  match env.sbt id with
  | some (some dta) =>
    decide (dta.status = "1") && decide ((resolveUrl env dta.code).getD "" ≠ "") &&
      env.pdfGet ((resolveUrl env dta.code).getD "") && env.writeOk f t id
  | some none => false
  | none => false

/-- The link the resolver would fetch for an id (empty when unresolvable). -/
def resolvedUrlOf (env : Env) (id : String) : String :=
  match env.sbt id with
  | some (some dta) => (resolveUrl env dta.code).getD ""
  | some none => ""
  | none => ""

/-- The ids of one page, processed in page order (the `for … of` loop). -/
def processItems (env : Env) (f t : Int) : List String → ScrapeState → ScrapeState × List Event
  | [], st => (st, [])
  | id :: rest, st =>
    let r1 := processItem env f t id st
    let r2 := processItems env f t rest r1.1
    (r2.1, r1.2 ++ r2.2)

/-- The `while (hasNext)` pagination loop of `scrapeRange`
(scraper.js:52-164), with fuel standing in for the unbounded `while`: post
page `p`; a transport error, a response with no listing blocks, or one
with no extractable ids ends the walk; otherwise process the page's ids
and continue with page `p + 1`. -/
def walkPages (env : Env) (f t : Int) : Nat → Nat → ScrapeState → ScrapeState × List Event
  | _, 0, st => (st, [])
  | p, pfuel + 1, st =>
    match env.listPage f t p with
    | none => (st, [Event.postPage f t p])
    | some blocks =>
      if blocks = [] then (st, [Event.postPage f t p])
      else
        let ids := extractIds blocks
        if ids = [] then (st, [Event.postPage f t p])
        else
          let r1 := processItems env f t ids st
          let r2 := walkPages env f t (p + 1) pfuel r1.1
          (r2.1, Event.postPage f t p :: r1.2 ++ r2.2)

/-- Embedding of scrapeRange (scraper.js:44-165): create the window's output directory,
then walk its pages starting from page 0. -/
def scrapeRange (env : Env) (f t : Int) (pfuel : Nat) (st : ScrapeState) :
    ScrapeState × List Event :=
  let r := walkPages env f t 0 pfuel st
  (r.1, Event.ensureDir f t :: r.2)

/-- The id stream a window's walk would process, which depends only on the
environment (used to relate two runs over the same environment). -/
def walkIds (env : Env) (f t : Int) : Nat → Nat → List String
  | _, 0 => []
  | p, pfuel + 1 =>
    match env.listPage f t p with
    | none => []
    | some blocks =>
      if blocks = [] then []
      else
        let ids := extractIds blocks
        if ids = [] then [] else ids ++ walkIds env f t (p + 1) pfuel

/-- The `while (!done)` window loop of `runScraper` (scraper.js:205-242):
scrape the current window; if `repeatTillDate`, move to the window starting
the day after the current `toDate` and ending three months later minus a
day, clamped to today; stop when the next start passes today (or the
degenerate guard fires).  Fuel stands in for the unbounded `while`.  The
`formatDate`/`parseDate` string hand-off between iterations is the
identity on day numbers (`parseDateNums_format`). -/
def runLoop (env : Env) (today : Int) (rep : Bool) (pfuel : Nat) :
    Nat → Int → Int → ScrapeState → ScrapeState × List Event
  | 0, _, _, st => (st, [])
  | fuel + 1, curFrom, curTo, st =>
    let r1 := scrapeRange env curFrom curTo pfuel st
    if rep then
      let nextStart := addDays curTo 1
      if today < nextStart then r1
      else
        let e0 := addDays (addMonths nextStart 3) (-1)
        let nextEnd := if today < e0 then today else e0
        if nextEnd < nextStart then r1
        else
          let r2 := runLoop env today rep pfuel fuel nextStart nextEnd r1.1
          (r2.1, r1.2 ++ r2.2)
    else r1

/-- The windows the loop scrapes, in order (same recursion as `runLoop`). -/
def loopWindows (today : Int) (rep : Bool) : Nat → Int → Int → List (Int × Int)
  | 0, _, _ => []
  | fuel + 1, curFrom, curTo =>
    (curFrom, curTo) ::
      (if rep then
        (let nextStart := addDays curTo 1
         if today < nextStart then []
         else
           let e0 := addDays (addMonths nextStart 3) (-1)
           let nextEnd := if today < e0 then today else e0
           if nextEnd < nextStart then []
           else loopWindows today rep fuel nextStart nextEnd)
       else [])

/-- The code points ECMAScript `TrimString` strips: the WhiteSpace set
(TAB, VT, FF, SP, NBSP, the Unicode space separators, ZWNBSP) together
with the LineTerminator set (LF, CR, LS, PS). -/
def jsWs (c : Char) : Bool :=
  decide (c.toNat = 0x9 ∨ c.toNat = 0xa ∨ c.toNat = 0xb ∨ c.toNat = 0xc ∨ c.toNat = 0xd ∨
    c.toNat = 0x20 ∨ c.toNat = 0xa0 ∨ c.toNat = 0x1680 ∨
    (0x2000 ≤ c.toNat ∧ c.toNat ≤ 0x200a) ∨ c.toNat = 0x2028 ∨ c.toNat = 0x2029 ∨
    c.toNat = 0x202f ∨ c.toNat = 0x205f ∨ c.toNat = 0x3000 ∨ c.toNat = 0xfeff)

/-- JavaScript `trim()`: strip leading and trailing whitespace. -/
def trimStr (s : String) : String :=
  String.mk (((s.toList.dropWhile jsWs).reverse.dropWhile jsWs).reverse)

/-- Loading the cache log (scraper.js:187-190): split into lines, trim each,
drop blanks. -/
def loadCache (lines : List String) : List String :=
  (lines.map (fun l => trimStr l)).filter (fun l => l ≠ "")

/-- The state at the start of `runScraper`: zeroed counters, the in-memory
set loaded from the cache log, the log itself, and whatever pdf files are
already on disk. -/
def initState (cacheLines : List String) (files0 : List (Int × Int × String)) : ScrapeState :=
  { stats := ⟨0, 0, 0, 0⟩, cached := loadCache cacheLines,
    cacheFile := cacheLines, files := files0 }

/-- The caller-supplied crawl parameters that the engine's control flow
depends on (credential and filters are absorbed into `Env`). -/
structure Config where
  fromD : Int
  toD : Int
  repeatTillDate : Bool

/-- Embedding of runScraper (scraper.js:167-247). -/
def runScraper (env : Env) (today : Int) (cfg : Config) (fuel pfuel : Nat)
    (cacheLines : List String) (files0 : List (Int × Int × String)) :
    ScrapeState × List Event :=
  runLoop env today cfg.repeatTillDate pfuel fuel cfg.fromD cfg.toD (initState cacheLines files0)

/-- The page indices requested, in order, as recorded in a trace. -/
def pagesOf (tr : List Event) : List Nat :=
  tr.filterMap (fun e => match e with | Event.postPage _ _ p => some p | _ => none)

/-- The windows whose output directory was created, in order. -/
def windowsOf (tr : List Event) : List (Int × Int) :=
  tr.filterMap (fun e => match e with | Event.ensureDir f t => some (f, t) | _ => none)

/-- The `cookie` prompt's validator (index.js:19): any non-empty string
passes; an empty one is answered with the shown message and the prompt
does not resolve. -/
def validateCookie (input : String) : Except String Unit :=
  if input ≠ "" then Except.ok () else Except.error "Cookie cannot be empty"

/-- The date prompts' format test `/^\d{2}-\d{2}-\d{4}$/` (index.js:33,40). -/
def dateRegexOk (s : String) : Bool :=
  match s.toList with
  | [d1, d2, s1, m1, m2, s2, y1, y2, y3, y4] =>
    d1.isDigit && d2.isDigit && (s1 == '-') && m1.isDigit && m2.isDigit && (s2 == '-') &&
      y1.isDigit && y2.isDigit && y3.isDigit && y4.isDigit
  | _ => false

/-- The date prompts' validator (index.js:33,40). -/
def validateDate (input : String) : Except String Unit :=
  if dateRegexOk input then Except.ok () else Except.error "Invalid format"

/-- Embedding of parseDate (scraper.js:17-20) on a whole string: split on `-`, read the
first three fields as numbers, build the date.  Inputs reach this point
only after `dateRegexOk`, on which `toNat?` agrees with JavaScript's
`Number`; the catch-all `0` stands for the unreachable `NaN` case. -/
def parseDate (s : String) : Int :=
  match (s.splitOn "-").map (fun piece => piece.toNat?) with
  | some d :: some m :: some y :: _ => parseDateNums (d : Int) (m : Int) (y : Int)
  | _ => 0

/-- Embedding of startScraper (index.js:12-50): the prompt layer releases the answers to
`runScraper` only when every validator accepts; otherwise the offending
prompt re-asks and no crawl state is created, which the `none` result
models. -/
def startScraper (env : Env) (today : Int) (fuel pfuel : Nat)
    (cacheLines : List String) (files0 : List (Int × Int × String))
    (cookie fromDate toDate : String) (rep : Bool) :
    Option (ScrapeState × List Event) :=
  match validateCookie cookie, validateDate fromDate, validateDate toDate with
  | Except.ok _, Except.ok _, Except.ok _ =>
    some (runScraper env today ⟨parseDate fromDate, parseDate toDate, rep⟩ fuel pfuel
      cacheLines files0)
  | _, _, _ => none

/-- Environments whose extracted record ids are plain non-empty tokens: no
character is ECMAScript whitespace or a line terminator.  Such ids append
to the cache log as one whole line and survive the load-time trim
unchanged (true of the portal's ids); an id containing a newline or any
trimmed code point would not round-trip through the log
(scraper.js:132,189). -/
def CleanEnv (env : Env) : Prop :=
  ∀ f t : Int, ∀ p : Nat, ∀ blocks, env.listPage f t p = some blocks →
    ∀ id ∈ extractIds blocks, (∀ c ∈ id.toList, jsWs c = false) ∧ id ≠ ""

/-! ### Engine lemmas -/

theorem processItem_cached (env : Env) (f t : Int) (id : String) (st : ScrapeState)
    (h : st.cached.contains id = true) :
    processItem env f t id st =
      ({ st with
          stats :=
            { st.stats with
                scraped := st.stats.scraped + 1,
                skipped := st.stats.skipped + 1 } }, []) := by
  have h2 : id ∈ st.cached := by simpa using h
  simp [processItem, h2]

theorem processItem_success (env : Env) (f t : Int) (id : String) (st : ScrapeState)
    (hc : st.cached.contains id = false) (hs : itemSucceeds env f t id = true) :
    processItem env f t id st =
      ({ st with
          stats :=
            { st.stats with
                scraped := st.stats.scraped + 1,
                downloaded := st.stats.downloaded + 1 },
          cached := st.cached ++ [id],
          cacheFile := st.cacheFile ++ [id],
          files := st.files ++ [(f, t, id)] },
       [Event.postSbt id, Event.getPdf (resolvedUrlOf env id), Event.writeFile f t id,
        Event.appendCache id, Event.memAdd id]) := by
  have hc2 : id ∉ st.cached := by simpa using hc
  rcases h1 : env.sbt id with _ | h2
  · simp [itemSucceeds, h1] at hs
  · rcases h2 with _ | dta
    · simp [itemSucceeds, h1] at hs
    · simp only [itemSucceeds, h1, Bool.and_eq_true, decide_eq_true_eq] at hs
      obtain ⟨⟨⟨hstat, hurl⟩, hget⟩, hwrite⟩ := hs
      simp [processItem, resolvedUrlOf, hc2, h1, hstat, hurl, hget, hwrite]

theorem processItem_fail (env : Env) (f t : Int) (id : String) (st : ScrapeState)
    (hc : st.cached.contains id = false) (hs : itemSucceeds env f t id = false) :
    (processItem env f t id st).1 =
      { st with
          stats :=
            { st.stats with
                scraped := st.stats.scraped + 1,
                failed := st.stats.failed + 1 } } ∧
    ((processItem env f t id st).2 = [Event.postSbt id] ∨
     (processItem env f t id st).2 =
       [Event.postSbt id, Event.getPdf (resolvedUrlOf env id)]) := by
  have hc2 : id ∉ st.cached := by simpa using hc
  rcases h1 : env.sbt id with _ | h2
  · simp [processItem, markFailed, resolvedUrlOf, hc2, h1]
  · rcases h2 with _ | dta
    · simp [processItem, markFailed, resolvedUrlOf, hc2, h1]
    · simp only [itemSucceeds, h1, Bool.and_eq_true, decide_eq_true_eq] at hs
      by_cases hstat : dta.status = "1"
      · by_cases hurl : (resolveUrl env dta.code).getD "" ≠ ""
        · by_cases hget : env.pdfGet ((resolveUrl env dta.code).getD "") = true
          · have hwrite : env.writeOk f t id = false := by
              simpa [hstat, hurl, hget] using hs
            simp [processItem, markFailed, resolvedUrlOf, hc2, h1, hstat, hurl, hget, hwrite]
          · simp only [Bool.not_eq_true] at hget
            simp [processItem, markFailed, resolvedUrlOf, hc2, h1, hstat, hurl, hget]
        · simp only [ne_eq, Decidable.not_not] at hurl
          simp [processItem, markFailed, resolvedUrlOf, hc2, h1, hstat, hurl]
      · simp [processItem, markFailed, resolvedUrlOf, hc2, h1, hstat]

theorem processItem_counts (env : Env) (f t : Int) (id : String) (st : ScrapeState) :
    (processItem env f t id st).1.stats.scraped = st.stats.scraped + 1 ∧
    (processItem env f t id st).1.stats.downloaded + (processItem env f t id st).1.stats.skipped +
        (processItem env f t id st).1.stats.failed =
      st.stats.downloaded + st.stats.skipped + st.stats.failed + 1 ∧
    st.stats.failed ≤ (processItem env f t id st).1.stats.failed ∧
    st.stats.downloaded ≤ (processItem env f t id st).1.stats.downloaded := by
  rcases hc : st.cached.contains id with _ | _
  · rcases hs : itemSucceeds env f t id with _ | _
    · rw [(processItem_fail env f t id st hc hs).1]
      refine ⟨rfl, ?_, ?_, ?_⟩ <;> simp <;> omega
    · rw [processItem_success env f t id st hc hs]
      refine ⟨rfl, ?_, ?_, ?_⟩ <;> simp <;> omega
  · rw [processItem_cached env f t id st hc]
    refine ⟨rfl, ?_, ?_, ?_⟩ <;> simp <;> omega

theorem processItem_cacheShape (env : Env) (f t : Int) (id : String) (st : ScrapeState) :
    ((processItem env f t id st).1.cached = st.cached ∧
     (processItem env f t id st).1.cacheFile = st.cacheFile) ∨
    ((processItem env f t id st).1.cached = st.cached ++ [id] ∧
     (processItem env f t id st).1.cacheFile = st.cacheFile ++ [id]) := by
  rcases hc : st.cached.contains id with _ | _
  · rcases hs : itemSucceeds env f t id with _ | _
    · rw [(processItem_fail env f t id st hc hs).1]
      exact Or.inl ⟨rfl, rfl⟩
    · rw [processItem_success env f t id st hc hs]
      exact Or.inr ⟨rfl, rfl⟩
  · rw [processItem_cached env f t id st hc]
    exact Or.inl ⟨rfl, rfl⟩

theorem pagesOf_processItem (env : Env) (f t : Int) (id : String) (st : ScrapeState) :
    pagesOf (processItem env f t id st).2 = [] := by
  rcases hc : st.cached.contains id with _ | _
  · rcases hs : itemSucceeds env f t id with _ | _
    · rcases (processItem_fail env f t id st hc hs).2 with h | h <;> rw [h] <;> rfl
    · rw [processItem_success env f t id st hc hs]; rfl
  · rw [processItem_cached env f t id st hc]; rfl

theorem windowsOf_processItem (env : Env) (f t : Int) (id : String) (st : ScrapeState) :
    windowsOf (processItem env f t id st).2 = [] := by
  rcases hc : st.cached.contains id with _ | _
  · rcases hs : itemSucceeds env f t id with _ | _
    · rcases (processItem_fail env f t id st hc hs).2 with h | h <;> rw [h] <;> rfl
    · rw [processItem_success env f t id st hc hs]; rfl
  · rw [processItem_cached env f t id st hc]; rfl

theorem processItems_counts (env : Env) (f t : Int) (ids : List String) :
    ∀ st : ScrapeState,
      (processItems env f t ids st).1.stats.scraped = st.stats.scraped + ids.length ∧
      (processItems env f t ids st).1.stats.downloaded +
          (processItems env f t ids st).1.stats.skipped +
          (processItems env f t ids st).1.stats.failed =
        st.stats.downloaded + st.stats.skipped + st.stats.failed + ids.length ∧
      st.stats.failed ≤ (processItems env f t ids st).1.stats.failed ∧
      st.stats.downloaded ≤ (processItems env f t ids st).1.stats.downloaded := by
  induction ids with
  | nil => intro st; simp [processItems]
  | cons id rest ih =>
    intro st
    have h1 := processItem_counts env f t id st
    have h2 := ih (processItem env f t id st).1
    simp only [processItems, List.length_cons]
    omega

theorem processItems_cache_mono (env : Env) (f t : Int) (ids : List String) :
    ∀ st : ScrapeState, ∃ add : List String,
      (processItems env f t ids st).1.cached = st.cached ++ add ∧
      (processItems env f t ids st).1.cacheFile = st.cacheFile ++ add := by
  induction ids with
  | nil => intro st; exact ⟨[], by simp [processItems], by simp [processItems]⟩
  | cons id rest ih =>
    intro st
    obtain ⟨add2, ha2, hb2⟩ := ih (processItem env f t id st).1
    rcases processItem_cacheShape env f t id st with ⟨ha1, hb1⟩ | ⟨ha1, hb1⟩
    · exact ⟨add2, by simp [processItems, ha2, ha1], by simp [processItems, hb2, hb1]⟩
    · exact ⟨id :: add2, by simp [processItems, ha2, ha1], by simp [processItems, hb2, hb1]⟩

theorem pagesOf_processItems (env : Env) (f t : Int) (ids : List String) :
    ∀ st : ScrapeState, pagesOf (processItems env f t ids st).2 = [] := by
  induction ids with
  | nil => intro st; rfl
  | cons id rest ih =>
    intro st
    simp only [processItems, pagesOf, List.filterMap_append]
    have h1 := pagesOf_processItem env f t id st
    have h2 := ih (processItem env f t id st).1
    simp only [pagesOf] at h1 h2
    simp [h1, h2]

theorem windowsOf_processItems (env : Env) (f t : Int) (ids : List String) :
    ∀ st : ScrapeState, windowsOf (processItems env f t ids st).2 = [] := by
  induction ids with
  | nil => intro st; rfl
  | cons id rest ih =>
    intro st
    simp only [processItems, windowsOf, List.filterMap_append]
    have h1 := windowsOf_processItem env f t id st
    have h2 := ih (processItem env f t id st).1
    simp only [windowsOf] at h1 h2
    simp [h1, h2]

theorem processItems_allCached (env : Env) (f t : Int) (ids : List String) :
    ∀ st : ScrapeState, (∀ id ∈ ids, id ∈ st.cached) →
      (processItems env f t ids st).1.stats.scraped = st.stats.scraped + ids.length ∧
      (processItems env f t ids st).1.stats.skipped = st.stats.skipped + ids.length ∧
      (processItems env f t ids st).1.stats.downloaded = st.stats.downloaded ∧
      (processItems env f t ids st).1.stats.failed = st.stats.failed ∧
      (processItems env f t ids st).1.cached = st.cached ∧
      (processItems env f t ids st).1.cacheFile = st.cacheFile := by
  induction ids with
  | nil => intro st _; simp [processItems]
  | cons id rest ih =>
    intro st h
    have hc : st.cached.contains id = true := by
      simpa using h id (by simp)
    have heq := processItem_cached env f t id st hc
    have h2 := ih (processItem env f t id st).1
      (by
        intro x hx
        rw [heq]
        exact h x (by simp [hx]))
    simp [processItems, heq, List.length_cons] at h2 ⊢
    obtain ⟨g1, g2, g3, g4, g5, g6⟩ := h2
    exact ⟨by omega, by omega, g3, g4, g5, g6⟩

theorem processItems_coverage (env : Env) (f t : Int) (ids : List String) :
    ∀ st : ScrapeState,
      (processItems env f t ids st).1.stats.failed = st.stats.failed →
      ∀ id ∈ ids, id ∈ (processItems env f t ids st).1.cached := by
  induction ids with
  | nil => intro st _ id hid; simp at hid
  | cons id0 rest ih =>
    intro st hfail id hid
    have hi1 := processItem_counts env f t id0 st
    have hi2 := processItems_counts env f t rest (processItem env f t id0 st).1
    have hstep : (processItem env f t id0 st).1.stats.failed = st.stats.failed := by
      simp only [processItems] at hfail
      omega
    obtain ⟨add2, ha2, _⟩ := processItems_cache_mono env f t rest (processItem env f t id0 st).1
    rcases List.mem_cons.mp hid with hhead | htail
    · subst hhead
      rcases hc : st.cached.contains id with _ | _
      · rcases hs : itemSucceeds env f t id with _ | _
        · rw [(processItem_fail env f t id st hc hs).1] at hstep
          simp at hstep
        · have heq := processItem_success env f t id st hc hs
          simp only [processItems]
          rw [ha2, heq]
          simp
      · simp only [processItems]
        rw [ha2]
        rcases processItem_cacheShape env f t id st with ⟨ha1, _⟩ | ⟨ha1, _⟩ <;> rw [ha1] <;>
          simp [show id ∈ st.cached from by simpa using hc]
    · simp only [processItems]
      exact ih (processItem env f t id0 st).1 (by simp only [processItems] at hfail; omega) id htail

/-- Any listed id that the environment lets succeed ends up in the cache
set, regardless of other items failing. -/
theorem processItems_success_coverage (env : Env) (f t : Int) (ids : List String) :
    ∀ st : ScrapeState, ∀ id ∈ ids, itemSucceeds env f t id = true →
      id ∈ (processItems env f t ids st).1.cached := by
  induction ids with
  | nil => intro st id hid; simp at hid
  | cons id0 rest ih =>
    intro st id hid hs
    obtain ⟨add2, ha2, _⟩ := processItems_cache_mono env f t rest (processItem env f t id0 st).1
    rcases List.mem_cons.mp hid with hhead | htail
    · subst hhead
      simp only [processItems]
      rw [ha2]
      rcases hc : st.cached.contains id with _ | _
      · rw [processItem_success env f t id st hc hs]
        simp
      · have hm : id ∈ st.cached := by simpa using hc
        rcases processItem_cacheShape env f t id st with ⟨ha1, _⟩ | ⟨ha1, _⟩ <;> rw [ha1] <;>
          simp [hm]
    · simp only [processItems]
      exact ih (processItem env f t id0 st).1 id htail hs

/-- If every listed id that could succeed is already cached, no item
downloads: each is either skipped or failed. -/
theorem processItems_noNewDownloads (env : Env) (f t : Int) (ids : List String) :
    ∀ st : ScrapeState, (∀ id ∈ ids, itemSucceeds env f t id = true → id ∈ st.cached) →
      (processItems env f t ids st).1.stats.downloaded = st.stats.downloaded := by
  induction ids with
  | nil => intro st _; simp [processItems]
  | cons id rest ih =>
    intro st h
    have hrest : ∀ x ∈ rest, itemSucceeds env f t x = true →
        x ∈ (processItem env f t id st).1.cached := by
      intro x hx hs
      rcases processItem_cacheShape env f t id st with ⟨ha, _⟩ | ⟨ha, _⟩ <;> rw [ha] <;>
        simp [h x (by simp [hx]) hs]
    simp only [processItems]
    rw [ih (processItem env f t id st).1 hrest]
    rcases hc : st.cached.contains id with _ | _
    · rcases hs : itemSucceeds env f t id with _ | _
      · rw [(processItem_fail env f t id st hc hs).1]
      · exact absurd (h id (by simp) hs) (by simpa using hc)
    · rw [processItem_cached env f t id st hc]

theorem dropWhile_jsWs_eq_self (l : List Char) (h : ∀ c ∈ l, jsWs c = false) :
    l.dropWhile jsWs = l := by
  cases l with
  | nil => rfl
  | cons c cs => simp [List.dropWhile_cons, h c (by simp)]

/-- Trimming does not change a string none of whose characters are
whitespace. -/
theorem trimStr_eq_self (s : String) (h : ∀ c ∈ s.toList, jsWs c = false) :
    trimStr s = s := by
  have h1 : s.toList.dropWhile jsWs = s.toList := dropWhile_jsWs_eq_self s.toList h
  have h2 : s.toList.reverse.dropWhile jsWs = s.toList.reverse :=
    dropWhile_jsWs_eq_self s.toList.reverse (fun c hc => h c (List.mem_reverse.mp hc))
  simp only [trimStr, h1, h2, List.reverse_reverse]
  rfl

/-- Appending one clean line to the cache log extends its loaded form by
exactly that id. -/
theorem loadCache_append_clean (lines : List String) (id : String)
    (h1 : trimStr id = id) (h2 : id ≠ "") :
    loadCache (lines ++ [id]) = loadCache lines ++ [id] := by
  simp [loadCache, List.filter_append, h1, h2]

theorem processItems_sync (env : Env) (f t : Int) (ids : List String) :
    ∀ st : ScrapeState, (∀ id ∈ ids, trimStr id = id ∧ id ≠ "") →
      loadCache st.cacheFile = st.cached →
      loadCache (processItems env f t ids st).1.cacheFile =
        (processItems env f t ids st).1.cached := by
  induction ids with
  | nil => intro st _ h; exact h
  | cons id rest ih =>
    intro st hids h
    simp only [processItems]
    refine ih (processItem env f t id st).1 (fun x hx => hids x (by simp [hx])) ?_
    rcases processItem_cacheShape env f t id st with ⟨ha, hb⟩ | ⟨ha, hb⟩
    · rw [ha, hb, h]
    · rw [ha, hb, loadCache_append_clean st.cacheFile id (hids id (by simp)).1
        (hids id (by simp)).2, h]

/-- A page that keeps the walk going: a response arrives, it has listing
blocks, and at least one id is extracted. -/
def pageNonTerminal (env : Env) (f t : Int) (p : Nat) : Prop :=
  ∃ blocks, env.listPage f t p = some blocks ∧ blocks ≠ [] ∧ extractIds blocks ≠ []

/-- The pagination behaviour of the walk: if pages `p, …, p + n - 1` keep the
walk going and page `p + n` is the first that does not (error, no blocks,
or no ids), then exactly pages `p, p + 1, …, p + n` are requested, in that
order. -/
theorem walkPages_pages (env : Env) (f t : Int) :
    ∀ (n p pfuel : Nat) (st : ScrapeState),
      (∀ i, i < n → pageNonTerminal env f t (p + i)) →
      ¬ pageNonTerminal env f t (p + n) → n < pfuel →
      pagesOf (walkPages env f t p pfuel st).2 = List.range' p (n + 1) := by
  intro n
  induction n with
  | zero =>
    intro p pfuel st hlt hterm hfuel
    rcases pfuel with _ | k
    · omega
    rcases hbp : env.listPage f t p with _ | blocks
    · simp [walkPages, hbp, pagesOf]
    · by_cases hb : blocks = []
      · simp [walkPages, hbp, hb, pagesOf]
      · by_cases hi : extractIds blocks = []
        · simp [walkPages, hbp, hb, hi, pagesOf]
        · refine absurd ?_ hterm
          rw [Nat.add_zero]
          exact ⟨blocks, hbp, hb, hi⟩
  | succ n ih =>
    intro p pfuel st hlt hterm hfuel
    rcases pfuel with _ | k
    · omega
    have h0 := hlt 0 (by omega)
    rw [Nat.add_zero] at h0
    obtain ⟨blocks, hbp, hb, hi⟩ := h0
    have hitems := pagesOf_processItems env f t (extractIds blocks) st
    have hrec := ih (p + 1) k (processItems env f t (extractIds blocks) st).1
      (by
        intro i hi2
        have h := hlt (i + 1) (by omega)
        have e : p + (i + 1) = p + 1 + i := by omega
        rwa [e] at h)
      (by
        have e : p + (n + 1) = p + 1 + n := by omega
        rwa [e] at hterm)
      (by omega)
    simp only [walkPages, hbp, if_neg hb, if_neg hi]
    simp only [pagesOf, List.filterMap_cons, List.filterMap_append] at hitems hrec ⊢
    rw [List.range'_succ]
    simp [hitems, hrec]

theorem windowsOf_walkPages (env : Env) (f t : Int) :
    ∀ (pfuel p : Nat) (st : ScrapeState), windowsOf (walkPages env f t p pfuel st).2 = [] := by
  intro pfuel
  induction pfuel with
  | zero => intro p st; rfl
  | succ k ih =>
    intro p st
    rcases hbp : env.listPage f t p with _ | blocks
    · simp [walkPages, hbp, windowsOf]
    · by_cases hb : blocks = []
      · simp [walkPages, hbp, hb, windowsOf]
      · by_cases hi : extractIds blocks = []
        · simp [walkPages, hbp, hb, hi, windowsOf]
        · have h1 := windowsOf_processItems env f t (extractIds blocks) st
          have h2 := ih (p + 1) (processItems env f t (extractIds blocks) st).1
          simp only [walkPages, hbp, if_neg hb, if_neg hi]
          simp only [windowsOf, List.filterMap_cons, List.filterMap_append] at h1 h2 ⊢
          simp [h1, h2]

theorem walkPages_counts (env : Env) (f t : Int) :
    ∀ (pfuel p : Nat) (st : ScrapeState),
      (walkPages env f t p pfuel st).1.stats.scraped =
        st.stats.scraped + (walkIds env f t p pfuel).length ∧
      (walkPages env f t p pfuel st).1.stats.downloaded +
          (walkPages env f t p pfuel st).1.stats.skipped +
          (walkPages env f t p pfuel st).1.stats.failed =
        st.stats.downloaded + st.stats.skipped + st.stats.failed +
          (walkIds env f t p pfuel).length ∧
      st.stats.failed ≤ (walkPages env f t p pfuel st).1.stats.failed ∧
      st.stats.downloaded ≤ (walkPages env f t p pfuel st).1.stats.downloaded := by
  intro pfuel
  induction pfuel with
  | zero => intro p st; simp [walkPages, walkIds]
  | succ k ih =>
    intro p st
    rcases hbp : env.listPage f t p with _ | blocks
    · simp [walkPages, walkIds, hbp]
    · by_cases hb : blocks = []
      · simp [walkPages, walkIds, hbp, hb]
      · by_cases hi : extractIds blocks = []
        · simp [walkPages, walkIds, hbp, hb, hi]
        · have h1 := processItems_counts env f t (extractIds blocks) st
          have h2 := ih (p + 1) (processItems env f t (extractIds blocks) st).1
          simp only [walkPages, walkIds, hbp, if_neg hb, if_neg hi, List.length_append]
          omega

theorem walkPages_cache_mono (env : Env) (f t : Int) :
    ∀ (pfuel p : Nat) (st : ScrapeState), ∃ add : List String,
      (walkPages env f t p pfuel st).1.cached = st.cached ++ add ∧
      (walkPages env f t p pfuel st).1.cacheFile = st.cacheFile ++ add := by
  intro pfuel
  induction pfuel with
  | zero => intro p st; exact ⟨[], by simp [walkPages], by simp [walkPages]⟩
  | succ k ih =>
    intro p st
    rcases hbp : env.listPage f t p with _ | blocks
    · exact ⟨[], by simp [walkPages, hbp], by simp [walkPages, hbp]⟩
    · by_cases hb : blocks = []
      · exact ⟨[], by simp [walkPages, hbp, hb], by simp [walkPages, hbp, hb]⟩
      · by_cases hi : extractIds blocks = []
        · exact ⟨[], by simp [walkPages, hbp, hb, hi], by simp [walkPages, hbp, hb, hi]⟩
        · obtain ⟨a1, ha1, hb1⟩ := processItems_cache_mono env f t (extractIds blocks) st
          obtain ⟨a2, ha2, hb2⟩ := ih (p + 1) (processItems env f t (extractIds blocks) st).1
          refine ⟨a1 ++ a2, ?_, ?_⟩
          · simp only [walkPages, hbp, if_neg hb, if_neg hi]
            rw [ha2, ha1, List.append_assoc]
          · simp only [walkPages, hbp, if_neg hb, if_neg hi]
            rw [hb2, hb1, List.append_assoc]

theorem walkPages_allCached (env : Env) (f t : Int) :
    ∀ (pfuel p : Nat) (st : ScrapeState),
      (∀ id ∈ walkIds env f t p pfuel, id ∈ st.cached) →
      (walkPages env f t p pfuel st).1.stats.scraped =
        st.stats.scraped + (walkIds env f t p pfuel).length ∧
      (walkPages env f t p pfuel st).1.stats.skipped =
        st.stats.skipped + (walkIds env f t p pfuel).length ∧
      (walkPages env f t p pfuel st).1.stats.downloaded = st.stats.downloaded ∧
      (walkPages env f t p pfuel st).1.stats.failed = st.stats.failed ∧
      (walkPages env f t p pfuel st).1.cached = st.cached ∧
      (walkPages env f t p pfuel st).1.cacheFile = st.cacheFile := by
  intro pfuel
  induction pfuel with
  | zero => intro p st _; simp [walkPages, walkIds]
  | succ k ih =>
    intro p st h
    rcases hbp : env.listPage f t p with _ | blocks
    · simp [walkPages, walkIds, hbp]
    · by_cases hb : blocks = []
      · simp [walkPages, walkIds, hbp, hb]
      · by_cases hi : extractIds blocks = []
        · simp [walkPages, walkIds, hbp, hb, hi]
        · have hset : ∀ id ∈ extractIds blocks, id ∈ st.cached := by
            intro x hx
            refine h x ?_
            simp only [walkIds, hbp, if_neg hb, if_neg hi]
            exact List.mem_append_left _ hx
          have h1 := processItems_allCached env f t (extractIds blocks) st hset
          have hset2 : ∀ id ∈ walkIds env f t (p + 1) k,
              id ∈ (processItems env f t (extractIds blocks) st).1.cached := by
            intro x hx
            rw [h1.2.2.2.2.1]
            refine h x ?_
            simp only [walkIds, hbp, if_neg hb, if_neg hi]
            exact List.mem_append_right _ hx
          have h2 := ih (p + 1) (processItems env f t (extractIds blocks) st).1 hset2
          simp only [walkPages, walkIds, hbp, if_neg hb, if_neg hi, List.length_append]
          refine ⟨by omega, by omega, by omega, by omega, ?_, ?_⟩
          · rw [h2.2.2.2.2.1, h1.2.2.2.2.1]
          · rw [h2.2.2.2.2.2, h1.2.2.2.2.2]

theorem walkPages_coverage (env : Env) (f t : Int) :
    ∀ (pfuel p : Nat) (st : ScrapeState),
      (walkPages env f t p pfuel st).1.stats.failed = st.stats.failed →
      ∀ id ∈ walkIds env f t p pfuel, id ∈ (walkPages env f t p pfuel st).1.cached := by
  intro pfuel
  induction pfuel with
  | zero => intro p st _ id hid; simp [walkIds] at hid
  | succ k ih =>
    intro p st hfail id hid
    rcases hbp : env.listPage f t p with _ | blocks
    · simp [walkIds, hbp] at hid
    · by_cases hb : blocks = []
      · simp [walkIds, hbp, hb] at hid
      · by_cases hi : extractIds blocks = []
        · simp [walkIds, hbp, hb, hi] at hid
        · have hc1 := processItems_counts env f t (extractIds blocks) st
          have hc2 := walkPages_counts env f t k (p + 1)
            (processItems env f t (extractIds blocks) st).1
          simp only [walkPages, hbp, if_neg hb, if_neg hi] at hfail ⊢
          simp only [walkIds, hbp, if_neg hb, if_neg hi] at hid
          obtain ⟨a2, ha2, _⟩ := walkPages_cache_mono env f t k (p + 1)
            (processItems env f t (extractIds blocks) st).1
          rcases List.mem_append.mp hid with hpage | hrest
          · have hcov := processItems_coverage env f t (extractIds blocks) st (by omega) id hpage
            rw [ha2]
            exact List.mem_append_left _ hcov
          · exact ih (p + 1) (processItems env f t (extractIds blocks) st).1 (by omega) id hrest

/-- Success coverage lifted to the page walk of one window. -/
theorem walkPages_success_coverage (env : Env) (f t : Int) :
    ∀ (pfuel p : Nat) (st : ScrapeState), ∀ id ∈ walkIds env f t p pfuel,
      itemSucceeds env f t id = true → id ∈ (walkPages env f t p pfuel st).1.cached := by
  intro pfuel
  induction pfuel with
  | zero => intro p st id hid; simp [walkIds] at hid
  | succ k ih =>
    intro p st id hid hs
    rcases hbp : env.listPage f t p with _ | blocks
    · simp [walkIds, hbp] at hid
    · by_cases hb : blocks = []
      · simp [walkIds, hbp, hb] at hid
      · by_cases hi : extractIds blocks = []
        · simp [walkIds, hbp, hb, hi] at hid
        · simp only [walkPages, hbp, if_neg hb, if_neg hi]
          simp only [walkIds, hbp, if_neg hb, if_neg hi] at hid
          obtain ⟨a2, ha2, _⟩ := walkPages_cache_mono env f t k (p + 1)
            (processItems env f t (extractIds blocks) st).1
          rcases List.mem_append.mp hid with hpage | hrest
          · have hcov := processItems_success_coverage env f t (extractIds blocks) st id hpage hs
            rw [ha2]
            exact List.mem_append_left _ hcov
          · exact ih (p + 1) (processItems env f t (extractIds blocks) st).1 id hrest hs

/-- No new downloads lifted to the page walk of one window. -/
theorem walkPages_noNewDownloads (env : Env) (f t : Int) :
    ∀ (pfuel p : Nat) (st : ScrapeState),
      (∀ id ∈ walkIds env f t p pfuel, itemSucceeds env f t id = true → id ∈ st.cached) →
      (walkPages env f t p pfuel st).1.stats.downloaded = st.stats.downloaded := by
  intro pfuel
  induction pfuel with
  | zero => intro p st _; simp [walkPages]
  | succ k ih =>
    intro p st h
    rcases hbp : env.listPage f t p with _ | blocks
    · simp [walkPages, hbp]
    · by_cases hb : blocks = []
      · simp [walkPages, hbp, hb]
      · by_cases hi : extractIds blocks = []
        · simp [walkPages, hbp, hb, hi]
        · have h1 := processItems_noNewDownloads env f t (extractIds blocks) st
            (by
              intro x hx hs
              refine h x ?_ hs
              simp only [walkIds, hbp, if_neg hb, if_neg hi]
              exact List.mem_append_left _ hx)
          obtain ⟨a1, ha1, _⟩ := processItems_cache_mono env f t (extractIds blocks) st
          have h2 := ih (p + 1) (processItems env f t (extractIds blocks) st).1
            (by
              intro x hx hs
              rw [ha1]
              refine List.mem_append_left _ (h x ?_ hs)
              simp only [walkIds, hbp, if_neg hb, if_neg hi]
              exact List.mem_append_right _ hx)
          simp only [walkPages, hbp, if_neg hb, if_neg hi]
          rw [h2, h1]

theorem walkPages_sync (env : Env) (f t : Int) (hclean : CleanEnv env) :
    ∀ (pfuel p : Nat) (st : ScrapeState),
      loadCache st.cacheFile = st.cached →
      loadCache (walkPages env f t p pfuel st).1.cacheFile =
        (walkPages env f t p pfuel st).1.cached := by
  intro pfuel
  induction pfuel with
  | zero => intro p st h; simpa [walkPages] using h
  | succ k ih =>
    intro p st h
    rcases hbp : env.listPage f t p with _ | blocks
    · simpa [walkPages, hbp] using h
    · by_cases hb : blocks = []
      · simpa [walkPages, hbp, hb] using h
      · by_cases hi : extractIds blocks = []
        · simpa [walkPages, hbp, hb, hi] using h
        · have h1 := processItems_sync env f t (extractIds blocks) st
            (fun x hx =>
              ⟨trimStr_eq_self x (hclean f t p blocks hbp x hx).1,
               (hclean f t p blocks hbp x hx).2⟩) h
          simp only [walkPages, hbp, if_neg hb, if_neg hi]
          exact ih (p + 1) (processItems env f t (extractIds blocks) st).1 h1

/-- The state effect of the window loop, as a fold over the window list. -/
def processWindows (env : Env) (pfuel : Nat) : List (Int × Int) → ScrapeState → ScrapeState
  | [], st => st
  | (f, t) :: ws, st => processWindows env pfuel ws (walkPages env f t 0 pfuel st).1

/-- The window loop's effect on the state factors through the window list:
the control flow of `runLoop` (which windows are scraped, in which order)
does not depend on the crawl state. -/
theorem runLoop_eq_fold (env : Env) (today : Int) (rep : Bool) (pfuel : Nat) :
    ∀ (fuel : Nat) (f t : Int) (st : ScrapeState),
      (runLoop env today rep pfuel fuel f t st).1 =
        processWindows env pfuel (loopWindows today rep fuel f t) st := by
  intro fuel
  induction fuel with
  | zero => intro f t st; rfl
  | succ k ih =>
    intro f t st
    rcases rep with _ | _
    · simp [runLoop, loopWindows, processWindows, scrapeRange]
    · by_cases hg1 : today < addDays t 1
      · simp [runLoop, loopWindows, processWindows, scrapeRange, hg1]
      · by_cases hg2 : today < addDays (addMonths (addDays t 1) 3) (-1)
        · by_cases hg4 : today < addDays t 1
          · exact absurd hg4 hg1
          · simp only [runLoop, loopWindows, if_pos rfl, if_neg hg1, if_pos hg2, if_neg hg4]
            simp only [processWindows, scrapeRange]
            exact ih (addDays t 1) today (walkPages env f t 0 pfuel st).1
        · by_cases hg3 : addDays (addMonths (addDays t 1) 3) (-1) < addDays t 1
          · simp [runLoop, loopWindows, processWindows, scrapeRange, hg1, hg2, hg3]
          · simp only [runLoop, loopWindows, if_pos rfl, if_neg hg1, if_neg hg2, if_neg hg3]
            simp only [processWindows, scrapeRange]
            exact ih (addDays t 1) (addDays (addMonths (addDays t 1) 3) (-1)) (walkPages env f t 0 pfuel st).1

theorem processWindows_counts (env : Env) (pfuel : Nat) :
    ∀ (ws : List (Int × Int)) (st : ScrapeState),
      (processWindows env pfuel ws st).stats.scraped +
          (st.stats.downloaded + st.stats.skipped + st.stats.failed) =
        st.stats.scraped + ((processWindows env pfuel ws st).stats.downloaded +
          (processWindows env pfuel ws st).stats.skipped +
          (processWindows env pfuel ws st).stats.failed) ∧
      st.stats.failed ≤ (processWindows env pfuel ws st).stats.failed ∧
      st.stats.downloaded ≤ (processWindows env pfuel ws st).stats.downloaded := by
  intro ws
  induction ws with
  | nil => intro st; simp [processWindows]
  | cons w rest ih =>
    intro st
    rcases w with ⟨f, t⟩
    have h1 := walkPages_counts env f t pfuel 0 st
    have h2 := ih (walkPages env f t 0 pfuel st).1
    simp only [processWindows]
    omega

theorem processWindows_cache_mono (env : Env) (pfuel : Nat) :
    ∀ (ws : List (Int × Int)) (st : ScrapeState), ∃ add : List String,
      (processWindows env pfuel ws st).cached = st.cached ++ add ∧
      (processWindows env pfuel ws st).cacheFile = st.cacheFile ++ add := by
  intro ws
  induction ws with
  | nil => intro st; exact ⟨[], by simp [processWindows], by simp [processWindows]⟩
  | cons w rest ih =>
    intro st
    rcases w with ⟨f, t⟩
    obtain ⟨a1, ha1, hb1⟩ := walkPages_cache_mono env f t pfuel 0 st
    obtain ⟨a2, ha2, hb2⟩ := ih (walkPages env f t 0 pfuel st).1
    refine ⟨a1 ++ a2, ?_, ?_⟩
    · simp only [processWindows]
      rw [ha2, ha1, List.append_assoc]
    · simp only [processWindows]
      rw [hb2, hb1, List.append_assoc]

theorem processWindows_allCached (env : Env) (pfuel : Nat) :
    ∀ (ws : List (Int × Int)) (st : ScrapeState),
      (∀ fw tw : Int, (fw, tw) ∈ ws → ∀ id ∈ walkIds env fw tw 0 pfuel, id ∈ st.cached) →
      (processWindows env pfuel ws st).stats.downloaded = st.stats.downloaded ∧
      (processWindows env pfuel ws st).stats.failed = st.stats.failed ∧
      (processWindows env pfuel ws st).stats.scraped + st.stats.skipped =
        st.stats.scraped + (processWindows env pfuel ws st).stats.skipped ∧
      (processWindows env pfuel ws st).cached = st.cached ∧
      (processWindows env pfuel ws st).cacheFile = st.cacheFile := by
  intro ws
  induction ws with
  | nil => intro st _; simp [processWindows]
  | cons w rest ih =>
    intro st h
    rcases w with ⟨f, t⟩
    have h1 := walkPages_allCached env f t pfuel 0 st
      (fun id hid => h f t (by simp) id hid)
    have h2 := ih (walkPages env f t 0 pfuel st).1
      (by
        intro fw tw hw id hid
        rw [h1.2.2.2.2.1]
        exact h fw tw (by simp [hw]) id hid)
    simp only [processWindows]
    refine ⟨by omega, by omega, by omega, ?_, ?_⟩
    · rw [h2.2.2.2.1, h1.2.2.2.2.1]
    · rw [h2.2.2.2.2, h1.2.2.2.2.2]

theorem processWindows_coverage (env : Env) (pfuel : Nat) :
    ∀ (ws : List (Int × Int)) (st : ScrapeState),
      (processWindows env pfuel ws st).stats.failed = st.stats.failed →
      ∀ fw tw : Int, (fw, tw) ∈ ws → ∀ id ∈ walkIds env fw tw 0 pfuel,
        id ∈ (processWindows env pfuel ws st).cached := by
  intro ws
  induction ws with
  | nil => intro st _ fw tw hw; simp at hw
  | cons w rest ih =>
    intro st hfail fw tw hw id hid
    rcases w with ⟨f, t⟩
    have hc1 := walkPages_counts env f t pfuel 0 st
    have hc2 := processWindows_counts env pfuel rest (walkPages env f t 0 pfuel st).1
    simp only [processWindows] at hfail ⊢
    rcases List.mem_cons.mp hw with hhead | htail
    · obtain ⟨hf, ht⟩ : fw = f ∧ tw = t := Prod.mk.injEq .. ▸ hhead
      subst hf; subst ht
      have hcov := walkPages_coverage env fw tw pfuel 0 st (by omega) id hid
      obtain ⟨a2, ha2, _⟩ := processWindows_cache_mono env pfuel rest
        (walkPages env fw tw 0 pfuel st).1
      rw [ha2]
      exact List.mem_append_left _ hcov
    · exact ih (walkPages env f t 0 pfuel st).1 (by omega) fw tw htail id hid

/-- Success coverage over the whole window list: every id the environment
lets succeed in its window is in the final cache set of a run, whether or
not other items failed. -/
theorem processWindows_success_coverage (env : Env) (pfuel : Nat) :
    ∀ (ws : List (Int × Int)) (st : ScrapeState), ∀ fw tw : Int, (fw, tw) ∈ ws →
      ∀ id ∈ walkIds env fw tw 0 pfuel, itemSucceeds env fw tw id = true →
        id ∈ (processWindows env pfuel ws st).cached := by
  intro ws
  induction ws with
  | nil => intro st fw tw hw; simp at hw
  | cons w rest ih =>
    intro st fw tw hw id hid hs
    rcases w with ⟨f, t⟩
    simp only [processWindows]
    rcases List.mem_cons.mp hw with hhead | htail
    · obtain ⟨hf, ht⟩ : fw = f ∧ tw = t := Prod.mk.injEq .. ▸ hhead
      subst hf; subst ht
      have hcov := walkPages_success_coverage env fw tw pfuel 0 st id hid hs
      obtain ⟨a2, ha2, _⟩ := processWindows_cache_mono env pfuel rest
        (walkPages env fw tw 0 pfuel st).1
      rw [ha2]
      exact List.mem_append_left _ hcov
    · exact ih (walkPages env f t 0 pfuel st).1 fw tw htail id hid hs

/-- A run starting from a cache that already holds every id that could
succeed downloads nothing, even if some items fail. -/
theorem processWindows_noNewDownloads (env : Env) (pfuel : Nat) :
    ∀ (ws : List (Int × Int)) (st : ScrapeState),
      (∀ fw tw : Int, (fw, tw) ∈ ws → ∀ id ∈ walkIds env fw tw 0 pfuel,
        itemSucceeds env fw tw id = true → id ∈ st.cached) →
      (processWindows env pfuel ws st).stats.downloaded = st.stats.downloaded := by
  intro ws
  induction ws with
  | nil => intro st _; simp [processWindows]
  | cons w rest ih =>
    intro st h
    rcases w with ⟨f, t⟩
    have h1 := walkPages_noNewDownloads env f t pfuel 0 st
      (fun id hid hs => h f t (by simp) id hid hs)
    obtain ⟨a1, ha1, _⟩ := walkPages_cache_mono env f t pfuel 0 st
    have h2 := ih (walkPages env f t 0 pfuel st).1
      (by
        intro fw tw hw id hid hs
        rw [ha1]
        exact List.mem_append_left _ (h fw tw (by simp [hw]) id hid hs))
    simp only [processWindows]
    rw [h2, h1]

theorem processWindows_sync (env : Env) (pfuel : Nat) (hclean : CleanEnv env) :
    ∀ (ws : List (Int × Int)) (st : ScrapeState),
      loadCache st.cacheFile = st.cached →
      loadCache (processWindows env pfuel ws st).cacheFile =
        (processWindows env pfuel ws st).cached := by
  intro ws
  induction ws with
  | nil => intro st h; exact h
  | cons w rest ih =>
    intro st h
    rcases w with ⟨f, t⟩
    simp only [processWindows]
    exact ih (walkPages env f t 0 pfuel st).1 (walkPages_sync env f t hclean pfuel 0 st h)

theorem windowsOf_scrapeRange (env : Env) (f t : Int) (pfuel : Nat) (st : ScrapeState) :
    windowsOf (scrapeRange env f t pfuel st).2 = [(f, t)] := by
  have h := windowsOf_walkPages env f t pfuel 0 st
  simp only [scrapeRange, windowsOf, List.filterMap_cons] at h ⊢
  simp [h]

theorem windowsOf_append (a b : List Event) :
    windowsOf (a ++ b) = windowsOf a ++ windowsOf b :=
  List.filterMap_append a b _

theorem windowsOf_runLoop (env : Env) (today : Int) (rep : Bool) (pfuel : Nat) :
    ∀ (fuel : Nat) (f t : Int) (st : ScrapeState),
      windowsOf (runLoop env today rep pfuel fuel f t st).2 =
        loopWindows today rep fuel f t := by
  intro fuel
  induction fuel with
  | zero => intro f t st; rfl
  | succ k ih =>
    intro f t st
    rcases rep with _ | _
    · simp [runLoop, loopWindows, windowsOf_scrapeRange]
    · by_cases hg1 : today < addDays t 1
      · simp [runLoop, loopWindows, hg1, windowsOf_scrapeRange]
      · by_cases hg2 : today < addDays (addMonths (addDays t 1) 3) (-1)
        · simp [runLoop, loopWindows, hg1, hg2, windowsOf_append, windowsOf_scrapeRange, ih]
        · by_cases hg3 : addDays (addMonths (addDays t 1) 3) (-1) < addDays t 1
          · simp [runLoop, loopWindows, hg1, hg2, hg3, windowsOf_scrapeRange]
          · simp [runLoop, loopWindows, hg1, hg2, hg3, windowsOf_append,
              windowsOf_scrapeRange, ih]

/-- Planner invariants of the window loop with `repeatTillDate` on: every
later window starts the day after its predecessor ends, every emitted
window is non-degenerate (given a non-degenerate initial window), and the
windows are strictly increasing and non-overlapping. -/
theorem loopWindows_spec (today : Int) :
    ∀ (fuel : Nat) (f t : Int), f ≤ t →
      (∀ w ∈ loopWindows today true fuel f t, f ≤ w.1 ∧ w.1 ≤ w.2) ∧
      List.Chain' (fun a b => b.1 = addDays a.2 1) (loopWindows today true fuel f t) ∧
      List.Pairwise (fun a b : Int × Int => a.2 < b.1) (loopWindows today true fuel f t) := by
  intro fuel
  induction fuel with
  | zero => intro f t hft; simp [loopWindows]
  | succ k ih =>
    intro f t hft
    have hs1 : addDays t 1 = t + 1 := addDays_eq t 1
    by_cases hg1 : today < addDays t 1
    · refine ⟨?_, ?_, ?_⟩ <;> simp [loopWindows, hg1, hft]
    · by_cases hg2 : today < addDays (addMonths (addDays t 1) 3) (-1)
      · have ih2 := ih (addDays t 1) today (by omega)
        have hstep : loopWindows today true (k + 1) f t =
            (f, t) :: loopWindows today true k (addDays t 1) today := by
          simp [loopWindows, hg1, hg2]
        rw [hstep]
        refine ⟨?_, ?_, ?_⟩
        · intro w hw
          rcases List.mem_cons.mp hw with hh | hh
          · subst hh; exact ⟨le_refl _, hft⟩
          · have := ih2.1 w hh
            omega
        · refine List.chain'_cons'.mpr ⟨?_, ih2.2.1⟩
          intro b hb
          rcases k with _ | k2
          · simp [loopWindows] at hb
          · simp only [loopWindows, List.head?_cons, Option.mem_def, Option.some.injEq] at hb
            subst hb
            rfl
        · refine List.pairwise_cons.mpr ⟨?_, ih2.2.2⟩
          intro w hw
          have := ih2.1 w hw
          omega
      · by_cases hg3 : addDays (addMonths (addDays t 1) 3) (-1) < addDays t 1
        · refine ⟨?_, ?_, ?_⟩ <;> simp [loopWindows, hg1, hg2, hg3, hft]
        · have ih2 := ih (addDays t 1) (addDays (addMonths (addDays t 1) 3) (-1)) (by omega)
          have hstep : loopWindows today true (k + 1) f t =
              (f, t) :: loopWindows today true k (addDays t 1)
                (addDays (addMonths (addDays t 1) 3) (-1)) := by
            simp [loopWindows, hg1, hg2, hg3]
          rw [hstep]
          refine ⟨?_, ?_, ?_⟩
          · intro w hw
            rcases List.mem_cons.mp hw with hh | hh
            · subst hh; exact ⟨le_refl _, hft⟩
            · have := ih2.1 w hh
              omega
          · refine List.chain'_cons'.mpr ⟨?_, ih2.2.1⟩
            intro b hb
            rcases k with _ | k2
            · simp [loopWindows] at hb
            · simp only [loopWindows, List.head?_cons, Option.mem_def, Option.some.injEq] at hb
              subst hb
              rfl
          · refine List.pairwise_cons.mpr ⟨?_, ih2.2.2⟩
            intro w hw
            have := ih2.1 w hw
            omega

/-! ### Claim theorems -/

/-- Example onclick attribute carrying the record id A between single
quotes. -/
def onclickA : String := String.mk ['r', 'a', '(', squote, 'A', squote, ')']

/-- A token-exchange payload whose code fragment carries a link. -/
def sbtOkData : SbtData := ⟨"1", "<a href=\"u.pdf\">"⟩

/-- A benign environment: one listing page with one record, a working token
exchange, fetch and write. -/
def envOk : Env :=
  { listPage := fun _ _ p => if p = 0 then some [some onclickA] else some []
    sbt := fun _ => some (some sbtOkData)
    anchorHref := fun _ => none
    pdfGet := fun _ => true
    writeOk := fun _ _ _ => true }

/-- An environment whose token exchange always fails with a transport
error. -/
def envErr : Env :=
  { listPage := fun _ _ p => if p = 0 then some [some onclickA] else some []
    sbt := fun _ => none
    anchorHref := fun _ => none
    pdfGet := fun _ => false
    writeOk := fun _ _ _ => false }

/-- Fresh state: empty cache log, no files on disk. -/
def stEmpty : ScrapeState := initState [] []

/-- State whose cache log already holds the id `A` (and its file exists). -/
def stCachedA : ScrapeState := initState ["A"] [(1, 2, "A")]

/-- State after a crash between the binary write and the cache-log append:
the pdf file for `A` is on disk but the cache log is still empty. -/
def stCrashedA : ScrapeState := initState [] [(1, 2, "A")]

/-- C1: an extracted record id is counted Skipped iff it is in the in-memory
completion-cache set; the decision reads no filesystem state (the outcome
is identical for any contents of the disk), an id in the cache triggers no
remote request or download at all, and an id absent from the cache — even
one whose pdf file already exists on disk, as after a crash between write
and append — is re-attempted (the token exchange is posted). -/
theorem processItem_files (env : Env) (f t : Int) (id : String) (st : ScrapeState)
    (fs : List (Int × Int × String)) :
    (processItem env f t id { st with files := fs }).1.stats =
      (processItem env f t id st).1.stats ∧
    (processItem env f t id { st with files := fs }).1.cached =
      (processItem env f t id st).1.cached ∧
    (processItem env f t id { st with files := fs }).2 = (processItem env f t id st).2 := by
  rcases hc : st.cached.contains id with _ | _
  · have hcm : id ∉ st.cached := by simpa using hc
    rcases h1 : env.sbt id with _ | h2
    · simp [processItem, hcm, h1, markFailed]
    · rcases h2 with _ | dta
      · simp [processItem, hcm, h1, markFailed]
      · by_cases hstat : dta.status = "1"
        · by_cases hurl : (resolveUrl env dta.code).getD "" ≠ ""
          · by_cases hget : env.pdfGet ((resolveUrl env dta.code).getD "") = true
            · by_cases hw : env.writeOk f t id = true
              · simp [processItem, hcm, h1, hstat, hurl, hget, hw, markFailed]
              · simp [processItem, hcm, h1, hstat, hurl, hget, hw, markFailed]
            · simp [processItem, hcm, h1, hstat, hurl, hget, markFailed]
          · simp [processItem, hcm, h1, hstat, hurl, markFailed]
        · simp [processItem, hcm, h1, hstat, markFailed]
  · have hcm : id ∈ st.cached := by simpa using hc
    simp [processItem, hcm]

theorem claim_c1 (env : Env) (f t : Int) (id : String) (st : ScrapeState) :
    ((processItem env f t id st).1.stats.skipped = st.stats.skipped + 1 ↔ id ∈ st.cached) ∧
    (∀ files1 files2 : List (Int × Int × String),
      (processItem env f t id { st with files := files1 }).1.stats =
        (processItem env f t id { st with files := files2 }).1.stats ∧
      (processItem env f t id { st with files := files1 }).1.cached =
        (processItem env f t id { st with files := files2 }).1.cached ∧
      (processItem env f t id { st with files := files1 }).2 =
        (processItem env f t id { st with files := files2 }).2) ∧
    (id ∈ st.cached →
      (processItem env f t id st).2 = [] ∧
      (processItem env f t id st).1.stats.downloaded = st.stats.downloaded) ∧
    (id ∉ st.cached → Event.postSbt id ∈ (processItem env f t id st).2) := by
  refine ⟨?_, ?_, ?_, ?_⟩
  · rcases hc : st.cached.contains id with _ | _
    · have hcm : id ∉ st.cached := by simpa using hc
      rcases hs : itemSucceeds env f t id with _ | _
      · rw [(processItem_fail env f t id st hc hs).1]
        constructor
        · intro h
          exact absurd h (by simp)
        · intro h
          exact absurd h hcm
      · rw [processItem_success env f t id st hc hs]
        constructor
        · intro h
          exact absurd h (by simp)
        · intro h
          exact absurd h hcm
    · have hcm : id ∈ st.cached := by simpa using hc
      rw [processItem_cached env f t id st hc]
      simpa using hcm
  · intro files1 files2
    have a := processItem_files env f t id st files1
    have b := processItem_files env f t id st files2
    exact ⟨a.1.trans b.1.symm, a.2.1.trans b.2.1.symm, a.2.2.trans b.2.2.symm⟩
  · intro hmem
    have hc : st.cached.contains id = true := by simpa using hmem
    rw [processItem_cached env f t id st hc]
    exact ⟨rfl, rfl⟩
  · intro hmem
    have hc : st.cached.contains id = false := by simpa using hmem
    rcases hs : itemSucceeds env f t id with _ | _
    · rcases (processItem_fail env f t id st hc hs).2 with e | e <;> rw [e] <;> simp
    · rw [processItem_success env f t id st hc hs]
      simp

/-- Witness for C1 at the crash scenario: the cache log is empty but the
pdf file for `A` is already on disk, and the re-run still posts the token
exchange for `A`. -/
theorem claim_c1_witness : Event.postSbt "A" ∈ (processItem envOk 1 2 "A" stCrashedA).2 :=
  (claim_c1 envOk 1 2 "A" stCrashedA).2.2.2 (by decide)

/-- C2: with `repeatTillDate` on, the windows actually processed by the run
(for any environment) are contiguous — each later window starts exactly one
calendar day (`addDays … 1`) after its predecessor ends — every processed
window satisfies from ≤ to, and the windows are strictly increasing and
non-overlapping. -/
theorem claim_c2 (env : Env) (today : Int) (pfuel fuel : Nat) (f t : Int)
    (st : ScrapeState) (hft : f ≤ t) :
    List.Chain' (fun a b => b.1 = addDays a.2 1)
      (windowsOf (runLoop env today true pfuel fuel f t st).2) ∧
    (∀ w ∈ windowsOf (runLoop env today true pfuel fuel f t st).2, w.1 ≤ w.2) ∧
    List.Pairwise (fun a b : Int × Int => a.2 < b.1)
      (windowsOf (runLoop env today true pfuel fuel f t st).2) := by
  rw [windowsOf_runLoop]
  have h := loopWindows_spec today fuel f t hft
  exact ⟨h.2.1, fun w hw => (h.1 w hw).2, h.2.2⟩

/-- Witness for C2 on a concrete three-window run. -/
theorem claim_c2_witness :
    List.Chain' (fun a b => b.1 = addDays a.2 1)
      (windowsOf (runLoop envOk 19753 true 2 5 19600 19650 stEmpty).2) ∧
    (∀ w ∈ windowsOf (runLoop envOk 19753 true 2 5 19600 19650 stEmpty).2, w.1 ≤ w.2) ∧
    List.Pairwise (fun a b : Int × Int => a.2 < b.1)
      (windowsOf (runLoop envOk 19753 true 2 5 19600 19650 stEmpty).2) :=
  claim_c2 envOk 19753 2 5 19600 19650 stEmpty (by decide)

/-- C3: for a non-cached id, when the resolution succeeds the item's trace is
exactly `postSbt, getPdf, writeFile, appendCache, memAdd` — the cache-log
append happens only after the file write succeeded (`writeOk = true`), and
the in-memory insertion comes only after the append — and both the log and
the set gain the id; when any step fails, no append and no insertion
happen and log and set are unchanged, so an interruption before the append
never marks an undownloaded id complete. -/
theorem claim_c3 (env : Env) (f t : Int) (id : String) (st : ScrapeState)
    (hmem : id ∉ st.cached) :
    (itemSucceeds env f t id = true →
      (processItem env f t id st).2 =
        [Event.postSbt id, Event.getPdf (resolvedUrlOf env id), Event.writeFile f t id,
         Event.appendCache id, Event.memAdd id] ∧
      env.writeOk f t id = true ∧
      (processItem env f t id st).1.cacheFile = st.cacheFile ++ [id] ∧
      (processItem env f t id st).1.cached = st.cached ++ [id]) ∧
    (itemSucceeds env f t id = false →
      Event.appendCache id ∉ (processItem env f t id st).2 ∧
      Event.memAdd id ∉ (processItem env f t id st).2 ∧
      (processItem env f t id st).1.cacheFile = st.cacheFile ∧
      (processItem env f t id st).1.cached = st.cached) := by
  have hc : st.cached.contains id = false := by simpa using hmem
  constructor
  · intro hs
    have hwrite : env.writeOk f t id = true := by
      rcases h1 : env.sbt id with _ | h2
      · simp [itemSucceeds, h1] at hs
      · rcases h2 with _ | dta
        · simp [itemSucceeds, h1] at hs
        · simp only [itemSucceeds, h1, Bool.and_eq_true] at hs
          exact hs.2
    rw [processItem_success env f t id st hc hs]
    exact ⟨rfl, hwrite, rfl, rfl⟩
  · intro hs
    have h := processItem_fail env f t id st hc hs
    rcases h.2 with e | e <;> rw [h.1, e] <;> refine ⟨by simp, by simp, rfl, rfl⟩

/-- Witness for C3 at a successful concrete resolution. -/
theorem claim_c3_witness :
    (processItem envOk 1 2 "A" stEmpty).2 =
      [Event.postSbt "A", Event.getPdf (resolvedUrlOf envOk "A"), Event.writeFile 1 2 "A",
       Event.appendCache "A", Event.memAdd "A"] ∧
    envOk.writeOk 1 2 "A" = true ∧
    (processItem envOk 1 2 "A" stEmpty).1.cacheFile = stEmpty.cacheFile ++ ["A"] ∧
    (processItem envOk 1 2 "A" stEmpty).1.cached = stEmpty.cached ++ ["A"] :=
  (claim_c3 envOk 1 2 "A" stEmpty (by decide)).1 (by decide)

/-- C4: the planner's three-month step clamps day-of-month overflow: for
every date whose day does not exist in the month three calendar months
ahead, `addMonths · 3` lands on that month's last day (never rolling
further); in particular 31-01-2024 advances to 30-04-2024, the last day of
April, not into May. -/
theorem claim_c4 :
    (∀ z : Int, daysInMonth (isLeap (targetYear z)) (targetMonth z) < getDate z →
      getFullYear (addMonths z 3) = targetYear z ∧
      getMonth (addMonths z 3) = targetMonth z ∧
      getDate (addMonths z 3) = daysInMonth (isLeap (targetYear z)) (targetMonth z)) ∧
    addMonths (parseDateNums 31 1 2024) 3 = parseDateNums 30 4 2024 ∧
    getDate (addMonths (parseDateNums 31 1 2024) 3) = 30 ∧
    getMonth (addMonths (parseDateNums 31 1 2024) 3) = 3 ∧
    getFullYear (addMonths (parseDateNums 31 1 2024) 3) = 2024 := by
  refine ⟨?_, by decide, by decide, by decide, by decide⟩
  intro z hlt
  have h := addMonths3_spec z
  refine ⟨h.1, h.2.1, ?_⟩
  rw [h.2.2, if_neg (by omega)]

/-- Witness for C4's universal part at 31-01-2024. -/
theorem claim_c4_witness :
    getFullYear (addMonths (parseDateNums 31 1 2024) 3) = targetYear (parseDateNums 31 1 2024) ∧
    getMonth (addMonths (parseDateNums 31 1 2024) 3) = targetMonth (parseDateNums 31 1 2024) ∧
    getDate (addMonths (parseDateNums 31 1 2024) 3) =
      daysInMonth (isLeap (targetYear (parseDateNums 31 1 2024)))
        (targetMonth (parseDateNums 31 1 2024)) :=
  claim_c4.1 (parseDateNums 31 1 2024) (by decide)

/-- C5: within one window the walk requests pages `0, 1, 2, …` in strictly
increasing order, and a page that yields zero listing blocks or zero
extracted ids is the last page requested: if pages `0, …, n-1` are
non-terminal and page `n` answers with no blocks or no ids, exactly pages
`0 … n` are requested. -/
theorem claim_c5 (env : Env) (f t : Int) (st : ScrapeState) (n pfuel : Nat)
    (hbefore : ∀ i, i < n → pageNonTerminal env f t i)
    (hterm : ∃ blocks, env.listPage f t n = some blocks ∧
      (blocks = [] ∨ extractIds blocks = []))
    (hfuel : n < pfuel) :
    pagesOf (scrapeRange env f t pfuel st).2 = List.range (n + 1) := by
  have hnt : ¬ pageNonTerminal env f t (0 + n) := by
    obtain ⟨blocks, hbp, hcase⟩ := hterm
    rw [Nat.zero_add]
    rintro ⟨b2, hb2, hne, hni⟩
    rw [hbp] at hb2
    cases Option.some.inj hb2
    rcases hcase with h | h
    · exact hne h
    · exact hni h
  have h := walkPages_pages env f t n 0 pfuel st
    (fun i hi => by simpa using hbefore i hi) hnt hfuel
  have h2 : pagesOf (scrapeRange env f t pfuel st).2 =
      pagesOf (walkPages env f t 0 pfuel st).2 := by
    simp [scrapeRange, pagesOf]
  rw [h2, h, List.range_eq_range']

/-- Witness for C5: one productive page, then a blockless page. -/
theorem claim_c5_witness : pagesOf (scrapeRange envOk 1 2 2 stEmpty).2 = List.range 2 :=
  claim_c5 envOk 1 2 stEmpty 1 2
    (by
      intro i hi
      have hi0 : i = 0 := by omega
      subst hi0
      exact ⟨[some onclickA], by decide, by decide, by decide⟩)
    ⟨[], by decide, Or.inl rfl⟩ (by decide)

/-- C6: a failure while resolving one item is absorbed in place and counted
as failed; the item loop always processes every extracted sibling (the
scraped counter advances by the full page list, whatever the outcomes); a
transport error on the page request at index `n` ends the walk of the
current window right there (pages `0 … n` and no more); and the set of
windows the run processes is the planner's list, identical for every
environment, so later windows are scraped whatever errors earlier ones
hit. -/
theorem claim_c6 (env : Env) (today f t : Int) (rep : Bool) (id : String)
    (ids : List String) (st : ScrapeState) (n pfuel fuel : Nat) :
    (id ∉ st.cached → itemSucceeds env f t id = false →
      (processItem env f t id st).1.stats.failed = st.stats.failed + 1) ∧
    ((processItems env f t ids st).1.stats.scraped = st.stats.scraped + ids.length) ∧
    ((∀ i, i < n → pageNonTerminal env f t i) → env.listPage f t n = none → n < pfuel →
      pagesOf (scrapeRange env f t pfuel st).2 = List.range (n + 1)) ∧
    (windowsOf (runLoop env today rep pfuel fuel f t st).2 = loopWindows today rep fuel f t) := by
  refine ⟨?_, (processItems_counts env f t ids st).1, ?_, windowsOf_runLoop env today rep pfuel fuel f t st⟩
  · intro hmem hs
    have hc : st.cached.contains id = false := by simpa using hmem
    rw [(processItem_fail env f t id st hc hs).1]
  · intro hbefore herr hfuel
    have hnt : ¬ pageNonTerminal env f t (0 + n) := by
      rw [Nat.zero_add]
      rintro ⟨b2, hb2, _, _⟩
      rw [herr] at hb2
      exact Option.noConfusion hb2
    have h := walkPages_pages env f t n 0 pfuel st
      (fun i hi => by simpa using hbefore i hi) hnt hfuel
    have h2 : pagesOf (scrapeRange env f t pfuel st).2 =
        pagesOf (walkPages env f t 0 pfuel st).2 := by
      simp [scrapeRange, pagesOf]
    rw [h2, h, List.range_eq_range']

/-- Witness for C6: a transport error on the token exchange is counted as
one failure. -/
theorem claim_c6_witness :
    (processItem envErr 1 2 "A" stEmpty).1.stats.failed = stEmpty.stats.failed + 1 :=
  (claim_c6 envErr 200 1 2 false "A" [] stEmpty 0 1 1).1 (by decide) (by decide)

/-- C7: for a non-cached id, the downloaded counter advances exactly when
the token exchange answers with status `"1"`, a non-empty link is resolved
from the code fragment (escaped-href pattern or anchor fallback), and the
binary fetch and the file write succeed; on success the in-memory set and
the cache log gain the id, and in every other case the item is counted
failed with no cache update. -/
theorem claim_c7 (env : Env) (f t : Int) (id : String) (st : ScrapeState)
    (hmem : id ∉ st.cached) :
    ((processItem env f t id st).1.stats.downloaded = st.stats.downloaded + 1 ↔
      itemSucceeds env f t id = true) ∧
    (itemSucceeds env f t id = true ↔
      ∃ dta, env.sbt id = some (some dta) ∧ dta.status = "1" ∧
        (resolveUrl env dta.code).getD "" ≠ "" ∧
        env.pdfGet ((resolveUrl env dta.code).getD "") = true ∧
        env.writeOk f t id = true) ∧
    (itemSucceeds env f t id = true →
      (processItem env f t id st).1.cached = st.cached ++ [id] ∧
      (processItem env f t id st).1.cacheFile = st.cacheFile ++ [id]) ∧
    (itemSucceeds env f t id = false →
      (processItem env f t id st).1.stats.failed = st.stats.failed + 1 ∧
      (processItem env f t id st).1.cached = st.cached ∧
      (processItem env f t id st).1.cacheFile = st.cacheFile) := by
  have hc : st.cached.contains id = false := by simpa using hmem
  refine ⟨?_, ?_, ?_, ?_⟩
  · rcases hs : itemSucceeds env f t id with _ | _
    · rw [(processItem_fail env f t id st hc hs).1]
      constructor
      · intro h
        exact absurd h (by simp)
      · intro h
        exact absurd h (by simp)
    · rw [processItem_success env f t id st hc hs]
      simp
  · constructor
    · intro hs
      rcases h1 : env.sbt id with _ | h2
      · simp [itemSucceeds, h1] at hs
      · rcases h2 with _ | dta
        · simp [itemSucceeds, h1] at hs
        · simp only [itemSucceeds, h1, Bool.and_eq_true, decide_eq_true_eq] at hs
          exact ⟨dta, rfl, hs.1.1.1, hs.1.1.2, hs.1.2, hs.2⟩
    · rintro ⟨dta, h1, hstat, hurl, hget, hw⟩
      simp [itemSucceeds, h1, hstat, hurl, hget, hw]
  · intro hs
    rw [processItem_success env f t id st hc hs]
    exact ⟨rfl, rfl⟩
  · intro hs
    rw [(processItem_fail env f t id st hc hs).1]
    exact ⟨rfl, rfl, rfl⟩

/-- Witness for C7 at a successful concrete resolution. -/
theorem claim_c7_witness :
    (processItem envOk 1 2 "A" stEmpty).1.stats.downloaded = stEmpty.stats.downloaded + 1 :=
  (claim_c7 envOk 1 2 "A" stEmpty (by decide)).1.mpr (by decide)

/-- Counterexample to C8 as stated: with one listed record whose token
exchange suffers a transport error, the first run ends with one failure and
an empty cache log, and the second run over the same span re-processes the
item instead of skipping it — `scraped = 1` but `skipped = 0` (and the
failure repeats), so "every item reported as Skipped" is false. -/
theorem claim_c8_counterexample :
    (runScraper envErr 200 ⟨100, 120, false⟩ 1 2
        (runScraper envErr 200 ⟨100, 120, false⟩ 1 2 [] []).1.cacheFile []).1.stats.scraped = 1 ∧
    (runScraper envErr 200 ⟨100, 120, false⟩ 1 2
        (runScraper envErr 200 ⟨100, 120, false⟩ 1 2 [] []).1.cacheFile []).1.stats.skipped = 0 ∧
    (runScraper envErr 200 ⟨100, 120, false⟩ 1 2
        (runScraper envErr 200 ⟨100, 120, false⟩ 1 2 [] []).1.cacheFile []).1.stats.failed = 1 ∧
    (runScraper envErr 200 ⟨100, 120, false⟩ 1 2
        (runScraper envErr 200 ⟨100, 120, false⟩ 1 2 [] []).1.cacheFile []).1.stats.downloaded
      = 0 := by
  decide

/-- C8 (amended): over one fixed environment whose extracted ids are plain
non-empty tokens, free of whitespace and line terminators, a second run
over the same span, fed the first run's cache log, downloads nothing: any
id the environment lets succeed was already downloaded and logged by the
first run.  If moreover the first run reported zero failures, the second
run reports every item as Skipped (`skipped = scraped`, `failed = 0`); the
zero-failure condition is forced by the counterexample, since a failed
item is never logged and is re-attempted rather than skipped. -/
theorem claim_c8_amended (env : Env) (today : Int) (cfg : Config) (fuel pfuel : Nat)
    (cache0 : List String) (files0 files1 : List (Int × Int × String))
    (hclean : CleanEnv env) :
    (runScraper env today cfg fuel pfuel
        (runScraper env today cfg fuel pfuel cache0 files0).1.cacheFile
        files1).1.stats.downloaded = 0 ∧
    ((runScraper env today cfg fuel pfuel cache0 files0).1.stats.failed = 0 →
      (runScraper env today cfg fuel pfuel
          (runScraper env today cfg fuel pfuel cache0 files0).1.cacheFile
          files1).1.stats.failed = 0 ∧
      (runScraper env today cfg fuel pfuel
          (runScraper env today cfg fuel pfuel cache0 files0).1.cacheFile
          files1).1.stats.skipped =
        (runScraper env today cfg fuel pfuel
            (runScraper env today cfg fuel pfuel cache0 files0).1.cacheFile
            files1).1.stats.scraped) := by
  have hfold1 : (runScraper env today cfg fuel pfuel cache0 files0).1 =
      processWindows env pfuel (loopWindows today cfg.repeatTillDate fuel cfg.fromD cfg.toD)
        (initState cache0 files0) :=
    runLoop_eq_fold env today cfg.repeatTillDate pfuel fuel cfg.fromD cfg.toD _
  rw [hfold1]
  set ws := loopWindows today cfg.repeatTillDate fuel cfg.fromD cfg.toD with hws
  set r1 := processWindows env pfuel ws (initState cache0 files0) with hr1
  have hfold2 : (runScraper env today cfg fuel pfuel r1.cacheFile files1).1 =
      processWindows env pfuel ws (initState r1.cacheFile files1) :=
    runLoop_eq_fold env today cfg.repeatTillDate pfuel fuel cfg.fromD cfg.toD _
  rw [hfold2]
  have hsync0 : loadCache (initState cache0 files0).cacheFile =
      (initState cache0 files0).cached := rfl
  have hsync1 : loadCache r1.cacheFile = r1.cached :=
    processWindows_sync env pfuel hclean ws (initState cache0 files0) hsync0
  have hini : (initState r1.cacheFile files1).cached = r1.cached := hsync1
  have hdl := processWindows_noNewDownloads env pfuel ws (initState r1.cacheFile files1)
    (by
      intro fw tw hw id hid hs
      rw [hini]
      exact processWindows_success_coverage env pfuel ws (initState cache0 files0)
        fw tw hw id hid hs)
  refine ⟨hdl.trans rfl, ?_⟩
  intro hfail
  have hfail1 : r1.stats.failed = (initState cache0 files0).stats.failed := hfail
  have hcov := processWindows_coverage env pfuel ws (initState cache0 files0) hfail1
  have hall := processWindows_allCached env pfuel ws (initState r1.cacheFile files1)
    (by
      intro fw tw hw id hid
      rw [hini]
      exact hcov fw tw hw id hid)
  have e1 : (initState r1.cacheFile files1).stats.scraped = 0 := rfl
  have e3 : (initState r1.cacheFile files1).stats.skipped = 0 := rfl
  refine ⟨hall.2.1.trans rfl, ?_⟩
  have h := hall.2.2.1
  omega

/-- Witness for the amended C8 on a concrete benign environment. -/
theorem claim_c8_amended_witness :
    (runScraper envOk 200 ⟨100, 120, false⟩ 1 2
        (runScraper envOk 200 ⟨100, 120, false⟩ 1 2 [] []).1.cacheFile []).1.stats.downloaded
        = 0 ∧
    (runScraper envOk 200 ⟨100, 120, false⟩ 1 2
        (runScraper envOk 200 ⟨100, 120, false⟩ 1 2 [] []).1.cacheFile []).1.stats.failed = 0 ∧
    (runScraper envOk 200 ⟨100, 120, false⟩ 1 2
        (runScraper envOk 200 ⟨100, 120, false⟩ 1 2 [] []).1.cacheFile []).1.stats.skipped =
      (runScraper envOk 200 ⟨100, 120, false⟩ 1 2
        (runScraper envOk 200 ⟨100, 120, false⟩ 1 2 [] []).1.cacheFile []).1.stats.scraped := by
  have hcl : CleanEnv envOk := by
    intro f t p blocks h
    by_cases hp : p = 0
    · subst hp
      simp only [envOk, if_pos rfl] at h
      cases Option.some.inj h
      decide
    · simp only [envOk, if_neg hp] at h
      cases Option.some.inj h
      decide
  have h2 := (claim_c8_amended envOk 200 ⟨100, 120, false⟩ 1 2 [] [] [] hcl).2 (by decide)
  exact ⟨(claim_c8_amended envOk 200 ⟨100, 120, false⟩ 1 2 [] [] [] hcl).1, h2.1, h2.2⟩

/-- C9: an empty credential or a date that fails the `DD-MM-YYYY` format
test stops the run at the prompt layer: `runScraper` is never entered (no
requests, no directories, no cache writes), and the offending validator
surfaces its message. -/
theorem claim_c9 (env : Env) (today : Int) (fuel pfuel : Nat) (cache0 : List String)
    (files0 : List (Int × Int × String)) (cookie fromDate toDate : String) (rep : Bool)
    (hbad : cookie = "" ∨ dateRegexOk fromDate = false ∨ dateRegexOk toDate = false) :
    startScraper env today fuel pfuel cache0 files0 cookie fromDate toDate rep = none ∧
    (cookie = "" → validateCookie cookie = Except.error "Cookie cannot be empty") ∧
    (dateRegexOk fromDate = false → validateDate fromDate = Except.error "Invalid format") ∧
    (dateRegexOk toDate = false → validateDate toDate = Except.error "Invalid format") := by
  refine ⟨?_, ?_, ?_, ?_⟩
  · rcases hbad with h | h | h
    · have hcv : validateCookie cookie = Except.error "Cookie cannot be empty" := by
        simp [validateCookie, h]
      simp [startScraper, hcv]
    · have hv : validateDate fromDate = Except.error "Invalid format" := by
        simp [validateDate, h]
      rcases hcv : validateCookie cookie with msg | u
      · simp [startScraper, hcv]
      · simp [startScraper, hcv, hv]
    · have hv : validateDate toDate = Except.error "Invalid format" := by
        simp [validateDate, h]
      rcases hcv : validateCookie cookie with msg | u
      · simp [startScraper, hcv]
      · rcases hfv : validateDate fromDate with msg2 | u2
        · simp [startScraper, hcv, hfv]
        · simp [startScraper, hcv, hfv, hv]
  · intro h
    simp [validateCookie, h]
  · intro h
    simp [validateDate, h]
  · intro h
    simp [validateDate, h]

/-- Witness for C9 with an empty cookie. -/
theorem claim_c9_witness :
    startScraper envOk 200 1 2 [] [] "" "01-01-2024" "31-03-2024" false = none ∧
    validateCookie "" = Except.error "Cookie cannot be empty" :=
  ⟨(claim_c9 envOk 200 1 2 [] [] "" "01-01-2024" "31-03-2024" false (Or.inl rfl)).1,
   (claim_c9 envOk 200 1 2 [] [] "" "01-01-2024" "31-03-2024" false (Or.inl rfl)).2.1 rfl⟩

/-- C10: each processed id advances `scraped` by exactly one and exactly one
of `skipped`, `downloaded`, `failed` by one (the others unchanged), on
every branch; consequently a whole run's final counters satisfy
`scraped = downloaded + skipped + failed`. -/
theorem claim_c10 (env : Env) (today f t : Int) (cfg : Config) (id : String)
    (st : ScrapeState) (fuel pfuel : Nat) (cache0 : List String)
    (files0 : List (Int × Int × String)) :
    (processItem env f t id st).1.stats.scraped = st.stats.scraped + 1 ∧
    (((processItem env f t id st).1.stats.skipped = st.stats.skipped + 1 ∧
      (processItem env f t id st).1.stats.downloaded = st.stats.downloaded ∧
      (processItem env f t id st).1.stats.failed = st.stats.failed) ∨
     ((processItem env f t id st).1.stats.downloaded = st.stats.downloaded + 1 ∧
      (processItem env f t id st).1.stats.skipped = st.stats.skipped ∧
      (processItem env f t id st).1.stats.failed = st.stats.failed) ∨
     ((processItem env f t id st).1.stats.failed = st.stats.failed + 1 ∧
      (processItem env f t id st).1.stats.skipped = st.stats.skipped ∧
      (processItem env f t id st).1.stats.downloaded = st.stats.downloaded)) ∧
    ((runScraper env today cfg fuel pfuel cache0 files0).1.stats.scraped =
      (runScraper env today cfg fuel pfuel cache0 files0).1.stats.downloaded +
      (runScraper env today cfg fuel pfuel cache0 files0).1.stats.skipped +
      (runScraper env today cfg fuel pfuel cache0 files0).1.stats.failed) := by
  refine ⟨(processItem_counts env f t id st).1, ?_, ?_⟩
  · rcases hc : st.cached.contains id with _ | _
    · rcases hs : itemSucceeds env f t id with _ | _
      · rw [(processItem_fail env f t id st hc hs).1]
        exact Or.inr (Or.inr ⟨rfl, rfl, rfl⟩)
      · rw [processItem_success env f t id st hc hs]
        exact Or.inr (Or.inl ⟨rfl, rfl, rfl⟩)
    · rw [processItem_cached env f t id st hc]
      exact Or.inl ⟨rfl, rfl, rfl⟩
  · have hfold : (runScraper env today cfg fuel pfuel cache0 files0).1 =
        processWindows env pfuel (loopWindows today cfg.repeatTillDate fuel cfg.fromD cfg.toD)
          (initState cache0 files0) :=
      runLoop_eq_fold env today cfg.repeatTillDate pfuel fuel cfg.fromD cfg.toD _
    rw [hfold]
    have h := processWindows_counts env pfuel
      (loopWindows today cfg.repeatTillDate fuel cfg.fromD cfg.toD) (initState cache0 files0)
    have e1 : (initState cache0 files0).stats.scraped = 0 := rfl
    have e2 : (initState cache0 files0).stats.downloaded = 0 := rfl
    have e3 : (initState cache0 files0).stats.skipped = 0 := rfl
    have e4 : (initState cache0 files0).stats.failed = 0 := rfl
    omega

end GemScrape
